import Mathlib

/-!
Verification of the curve-evaluation engine declared in
source/blender/blenkernel/BKE_spline.hh (Spline, BezierSpline, NURBSpline,
PolySpline, CurveEval).

The repository ships the header only; the algorithmic bodies live in
translation units that are not part of the source tree here.  Where a
definition's body is missing, it is modelled from the specification's words
(marked "Modelled from the spec:" in its doc comment), with the header's
declarations and doc comments taken as authoritative where they speak.

Conventions of the embedding:
* geometric scalars are exact rationals (ℚ); `blender::float3` becomes
  `Float3`, a record of three rationals;
* the Euclidean metric used by the length cache needs a real square root, so
  all length-cache results are proved for an arbitrary non-negative distance
  function `d` supplied as a parameter (the header treats vector math as a
  black box);
* mutable per-spline caches become explicit `CacheCell` fields of a state
  record, with the get-or-compute protocol written as state-passing
  functions.
-/

namespace Blender

/-- Exact-arithmetic model of `blender::float3`: a 3-vector with rational
coordinates. -/
structure Float3 where
  x : ℚ
  y : ℚ
  z : ℚ
deriving DecidableEq, Repr, Inhabited

/-- Componentwise vector addition (black-box math boundary). -/
def Float3.add (a b : Float3) : Float3 :=
  ⟨a.x + b.x, a.y + b.y, a.z + b.z⟩

/-- Componentwise vector subtraction (black-box math boundary). -/
def Float3.sub (a b : Float3) : Float3 :=
  ⟨a.x - b.x, a.y - b.y, a.z - b.z⟩

/-- Scalar multiplication (black-box math boundary). -/
def Float3.smul (q : ℚ) (a : Float3) : Float3 :=
  ⟨q * a.x, q * a.y, q * a.z⟩

/-- The zero vector. -/
def Float3.zero : Float3 := ⟨0, 0, 0⟩

/-- Linear interpolation between two vectors: `(1 - t) • a + t • b`. -/
def Float3.lerp (t : ℚ) (a b : Float3) : Float3 :=
  Float3.add (Float3.smul (1 - t) a) (Float3.smul t b)

/-! ## Shared evaluated-length machinery (`Spline` base class)

Modelled from the spec: `evaluated_lengths()` is the cumulative length at
each evaluated point measured from index 0, computed lazily from
`evaluated_positions()`; if the spline is cyclic the length of the closing
edge back to index 0 is included.  `length()` is the last entry of
`evaluated_lengths()` (0 if fewer than 2 evaluated points). -/

/-- The list of consecutive evaluated-point pairs (the evaluated edges); when
the spline is cyclic and has at least two points, the closing edge from the
last point back to the first is appended. -/
def edgePairs (cyclic : Bool) (ps : List α) : List (α × α) :=
  match cyclic, ps with
  | true, p0 :: p1 :: rest =>
      (p0 :: p1 :: rest).zip (p1 :: rest) ++ [((p0 :: p1 :: rest).getLastD p0, p0)]
  | _, ps => ps.zip ps.tail

/-- Running partial sums: `cumulativeSums a [x0, x1, ...] = [a+x0, a+x0+x1, ...]`. -/
def cumulativeSums (a : ℚ) : List ℚ → List ℚ
  | [] => []
  | x :: rest => (a + x) :: cumulativeSums (a + x) rest

/-- Modelled from the spec: `Spline::evaluated_lengths()` — accumulated
lengths along the evaluated points, one entry per evaluated edge, each entry
the cumulative distance from evaluated point 0, for a distance function `d`. -/
def evaluated_lengths (d : α → α → ℚ) (cyclic : Bool) (ps : List α) : List ℚ :=
  cumulativeSums 0 ((edgePairs cyclic ps).map (fun e => d e.1 e.2))

/-- Modelled from the spec: `Spline::length()` — the last entry of
`evaluated_lengths()`, and 0 when the spline has fewer than 2 evaluated
points. -/
def spline_length (d : α → α → ℚ) (cyclic : Bool) (ps : List α) : ℚ :=
  (evaluated_lengths d cyclic ps).getLastD 0

/-- Modelled from the spec: `Spline::evaluated_edges_size()` — the number of
evaluated edges: 0 with fewer than 2 evaluated points, otherwise the number
of evaluated points when cyclic and one less when not. -/
def evaluated_edges_size (cyclic : Bool) (n : ℕ) : ℕ :=
  if n < 2 then 0 else if cyclic then n else n - 1

theorem length_cumulativeSums (a : ℚ) (l : List ℚ) :
    (cumulativeSums a l).length = l.length := by
  induction l generalizing a with
  | nil => rfl
  | cons x rest ih => simp [cumulativeSums, ih]

theorem length_edgePairs (cyclic : Bool) (ps : List α) :
    (edgePairs cyclic ps).length = evaluated_edges_size cyclic ps.length := by
  match cyclic, ps with
  | true, [] => rfl
  | true, [p] => rfl
  | true, p0 :: p1 :: rest =>
      have h1 : (edgePairs true (p0 :: p1 :: rest)).length = rest.length + 2 := by
        simp [edgePairs, List.length_zip]
      have h2 : evaluated_edges_size true (p0 :: p1 :: rest).length = rest.length + 2 := by
        rw [evaluated_edges_size, if_neg (by simp)]
        simp
      rw [h1, h2]
  | false, ps =>
      cases ps with
      | nil => rfl
      | cons p rest =>
          have h1 : (edgePairs false (p :: rest)).length = rest.length := by
            simp [edgePairs, List.length_zip]
          have h2 : evaluated_edges_size false (p :: rest).length = rest.length := by
            rw [evaluated_edges_size]
            rcases Nat.lt_or_ge (p :: rest).length 2 with h | h
            · rw [if_pos h]
              simp at h
              omega
            · rw [if_neg (Nat.not_lt.mpr h)]
              simp
          rw [h1, h2]

theorem length_evaluated_lengths (d : α → α → ℚ) (cyclic : Bool) (ps : List α) :
    (evaluated_lengths d cyclic ps).length = evaluated_edges_size cyclic ps.length := by
  simp [evaluated_lengths, length_cumulativeSums, length_edgePairs]

theorem chain_cumulativeSums (a : ℚ) (l : List ℚ) (h : ∀ x ∈ l, 0 ≤ x) :
    List.Chain' (· ≤ ·) (cumulativeSums a l) := by
  induction l generalizing a with
  | nil => simp [cumulativeSums]
  | cons x rest ih =>
      have hrest : ∀ y ∈ rest, 0 ≤ y := fun y hy => h y (List.mem_cons_of_mem _ hy)
      have hx : 0 ≤ x := h x (List.mem_cons_self _ _)
      cases rest with
      | nil => simp [cumulativeSums]
      | cons y rest2 =>
          refine List.Chain'.cons ?_ (ih (a + x) hrest)
          have : 0 ≤ y := hrest y (List.mem_cons_self _ _)
          simp [cumulativeSums]
          linarith

/-- C1: For every spline of any variant (the evaluated positions and the
metric are arbitrary, covering Bézier, NURBS and Poly), the sequence
returned by `evaluated_lengths()` is non-decreasing, its last value equals
`length()`, and `length()` is 0 when the spline has fewer than 2 evaluated
points. -/
theorem evaluated_lengths_monotone_last_eq_length
    (d : α → α → ℚ) (hd : ∀ a b, 0 ≤ d a b) (cyclic : Bool) (ps : List α) :
    List.Chain' (· ≤ ·) (evaluated_lengths d cyclic ps) ∧
    (evaluated_lengths d cyclic ps).getLastD 0 = spline_length d cyclic ps ∧
    (ps.length < 2 → spline_length d cyclic ps = 0) := by
  refine ⟨?_, rfl, ?_⟩
  · exact chain_cumulativeSums 0 _ (by
      intro q hq
      rcases List.mem_map.mp hq with ⟨e, _, rfl⟩
      exact hd e.1 e.2)
  · intro hlt
    have hlen : (evaluated_lengths d cyclic ps).length = 0 := by
      rw [length_evaluated_lengths]
      simp [evaluated_edges_size, hlt]
    rw [spline_length, List.length_eq_zero.mp hlen]
    rfl

/-- Rational distance on ℚ used to build concrete witnesses. -/
def qdist (a b : ℚ) : ℚ := if a ≤ b then b - a else a - b

theorem qdist_nonneg (a b : ℚ) : 0 ≤ qdist a b := by
  unfold qdist
  split <;> linarith

theorem evaluated_lengths_monotone_witness :
    (∀ a b : ℚ, 0 ≤ qdist a b) ∧
    (List.Chain' (· ≤ ·) (evaluated_lengths qdist true [(0 : ℚ), 2, 1]) ∧
      (evaluated_lengths qdist true [(0 : ℚ), 2, 1]).getLastD 0 =
        spline_length qdist true [(0 : ℚ), 2, 1] ∧
      (([(0 : ℚ), 2, 1] : List ℚ).length < 2 →
        spline_length qdist true [(0 : ℚ), 2, 1] = 0)) :=
  ⟨qdist_nonneg,
    evaluated_lengths_monotone_last_eq_length qdist qdist_nonneg
      true [(0 : ℚ), 2, 1]⟩

/-- C10: `evaluated_edges_size()` equals the evaluated point count when the
spline is cyclic and one less otherwise, and is 0 when the spline has fewer
than 2 evaluated points. -/
theorem evaluated_edges_size_spec (cyclic : Bool) (n : ℕ) :
    (2 ≤ n → evaluated_edges_size cyclic n = if cyclic then n else n - 1) ∧
    (n < 2 → evaluated_edges_size cyclic n = 0) := by
  constructor
  · intro h
    simp [evaluated_edges_size, Nat.not_lt.mpr h]
  · intro h
    simp [evaluated_edges_size, h]

theorem evaluated_edges_size_spec_witness :
    (evaluated_edges_size true 3 = 3) ∧ (evaluated_edges_size false 1 = 0) :=
  ⟨by simpa using (evaluated_edges_size_spec true 3).1 (by norm_num),
    (evaluated_edges_size_spec false 1).2 (by norm_num)⟩

/-! ## Length / factor lookup (`Spline::lookup_evaluated_factor/length`)

Modelled from the spec: a lookup maps a length (or a normalized factor
scaled by `length()`) to the evaluated edge containing it, by a lower-bound
search over the cumulative lengths; out-of-range inputs are clamped into
the valid domain ([0,1] for factors, [0, length()] for lengths) rather than
signaled as errors.  The header documents the result record: the index of
the evaluated point before the location, the one after it (accounting for
wrapping when the spline is cyclic), and the interpolation factor between
the two. -/

/-- `Spline::LookupResult` (header lines 145–163). -/
structure LookupResult where
  evaluated_index : ℕ
  next_evaluated_index : ℕ
  factor : ℚ
deriving DecidableEq, Repr

/-- Modelled from the spec: the search step shared by both lookups, applied
to an already-clamped target length `t`.  `n` is `evaluated_points_size()`
and `lengths` is `evaluated_lengths()`. -/
def lookupCore (cyclic : Bool) (n : ℕ) (lengths : List ℚ) (t : ℚ) : LookupResult :=
  let i := min (lengths.findIdx (fun x => decide (t ≤ x))) (lengths.length - 1)
  let prev := if i = 0 then 0 else lengths.getD (i - 1) 0
  let cur := lengths.getD i 0
  ⟨i, if cyclic then (i + 1) % n else i + 1, (t - prev) / (cur - prev)⟩

/-- Modelled from the spec: `Spline::lookup_evaluated_length` — the input
length is clamped to `[0, length()]`. -/
def lookup_evaluated_length (cyclic : Bool) (n : ℕ) (lengths : List ℚ) (t0 : ℚ) :
    LookupResult :=
  lookupCore cyclic n lengths (max 0 (min t0 (lengths.getLastD 0)))

/-- Modelled from the spec: `Spline::lookup_evaluated_factor` — the factor
is clamped to `[0,1]` and scaled by `length()`. -/
def lookup_evaluated_factor (cyclic : Bool) (n : ℕ) (lengths : List ℚ) (f0 : ℚ) :
    LookupResult :=
  lookupCore cyclic n lengths (max 0 (min f0 1) * lengths.getLastD 0)

/-- Factor lookup of a whole spline, from its evaluated positions and a
distance function. -/
def spline_lookup_factor (d : α → α → ℚ) (cyclic : Bool) (ps : List α) (f0 : ℚ) :
    LookupResult :=
  lookup_evaluated_factor cyclic ps.length (evaluated_lengths d cyclic ps) f0

/-- C5: out-of-domain lookup inputs are clamped into the valid domain, so
the result coincides with the lookup at the nearest boundary of the domain
(and is an ordinary `LookupResult`, never an error). -/
theorem lookup_clamps (cyclic : Bool) (n : ℕ) (lengths : List ℚ) (f0 t0 : ℚ) :
    (f0 < 0 → lookup_evaluated_factor cyclic n lengths f0 =
      lookup_evaluated_factor cyclic n lengths 0) ∧
    (1 < f0 → lookup_evaluated_factor cyclic n lengths f0 =
      lookup_evaluated_factor cyclic n lengths 1) ∧
    (t0 < 0 → lookup_evaluated_length cyclic n lengths t0 =
      lookup_evaluated_length cyclic n lengths 0) ∧
    (lengths.getLastD 0 < t0 → lookup_evaluated_length cyclic n lengths t0 =
      lookup_evaluated_length cyclic n lengths (lengths.getLastD 0)) := by
  refine ⟨fun h => ?_, fun h => ?_, fun h => ?_, fun h => ?_⟩
  · unfold lookup_evaluated_factor
    congr 2
    rw [min_eq_left (le_of_lt (lt_of_lt_of_le h zero_le_one)),
      max_eq_left (le_of_lt h)]
    norm_num
  · unfold lookup_evaluated_factor
    congr 2
    rw [min_eq_right (le_of_lt h)]
    norm_num
  · unfold lookup_evaluated_length
    congr 1
    have h1 : min t0 (lengths.getLastD 0) ≤ 0 :=
      le_trans (min_le_left _ _) (le_of_lt h)
    have h2 : min 0 (lengths.getLastD 0) ≤ 0 := min_le_left _ _
    rw [max_eq_left h1, max_eq_left h2]
  · unfold lookup_evaluated_length
    congr 1
    rw [min_eq_right (le_of_lt h), min_self]

theorem lookup_clamps_witness :
    ((-1 : ℚ) < 0 ∧ lookup_evaluated_factor false 3 [1, 2] (-1) =
      lookup_evaluated_factor false 3 [1, 2] 0) ∧
    ((1 : ℚ) < 2 ∧ lookup_evaluated_factor false 3 [1, 2] 2 =
      lookup_evaluated_factor false 3 [1, 2] 1) ∧
    ((-5 : ℚ) < 0 ∧ lookup_evaluated_length false 3 [1, 2] (-5) =
      lookup_evaluated_length false 3 [1, 2] 0) ∧
    (([(1 : ℚ), 2].getLastD 0 < 7 ∧ lookup_evaluated_length false 3 [1, 2] 7 =
      lookup_evaluated_length false 3 [1, 2] ([(1 : ℚ), 2].getLastD 0))) :=
  ⟨⟨by norm_num, (lookup_clamps false 3 [1, 2] (-1) 0).1 (by norm_num)⟩,
    ⟨by norm_num, (lookup_clamps false 3 [1, 2] 2 0).2.1 (by norm_num)⟩,
    ⟨by norm_num, (lookup_clamps false 3 [1, 2] 0 (-5)).2.2.1 (by norm_num)⟩,
    ⟨by decide, (lookup_clamps false 3 [1, 2] 0 7).2.2.2 (by decide)⟩⟩

theorem getLastD_eq_getD (l : List α) (d : α) :
    l.getLastD d = l.getD (l.length - 1) d := by
  rw [List.getLastD_eq_getLast?, List.getLast?_eq_getElem?, List.getD_eq_getElem?_getD]

theorem cumulativeSums_getD (a : ℚ) (l : List ℚ) (i : ℕ) (h : i < l.length) :
    (cumulativeSums a l).getD i 0 = a + (l.take (i + 1)).sum := by
  induction l generalizing a i with
  | nil => simp at h
  | cons x rest ih =>
      cases i with
      | zero => simp [cumulativeSums]
      | succ j =>
          have hj : j < rest.length := by simpa using h
          simp only [cumulativeSums, List.getD_cons_succ, List.take_succ_cons,
            List.sum_cons, ih (a + x) j hj]
          ring

theorem take_sum_le (l : List ℚ) (h : ∀ x ∈ l, 0 ≤ x) (i j : ℕ) (hij : i ≤ j) :
    (l.take i).sum ≤ (l.take j).sum := by
  have hj : j = i + (j - i) := by omega
  rw [hj, List.take_add, List.sum_append]
  have : 0 ≤ (List.take (j - i) (List.drop i l)).sum :=
    List.sum_nonneg fun x hx => h x (List.drop_subset i l (List.take_subset _ _ hx))
  linarith

theorem sum_take_pred_add_last (l : List ℚ) (h : l ≠ []) :
    l.sum = (l.take (l.length - 1)).sum + l.getLastD 0 := by
  conv_lhs => rw [← List.dropLast_append_getLast h]
  rw [List.sum_append, List.sum_singleton, List.dropLast_eq_take]
  congr 1
  rw [List.getLastD_eq_getLast?, List.getLast?_eq_getLast _ h]
  rfl

/-- At a clamped target of 0, the lower-bound search lands on index 0 with
interpolation factor 0, for any cumulative-length list with a non-negative
first entry. -/
theorem lookupCore_zero (cyclic : Bool) (n : ℕ) (lengths : List ℚ)
    (hne : lengths ≠ []) (hhead : 0 ≤ lengths.getD 0 0) :
    (lookupCore cyclic n lengths 0).evaluated_index = 0 ∧
    (lookupCore cyclic n lengths 0).factor = 0 := by
  cases lengths with
  | nil => exact absurd rfl hne
  | cons x rest =>
      have hx : 0 ≤ x := by simpa using hhead
      have hfind : List.findIdx (fun y => decide ((0 : ℚ) ≤ y)) (x :: rest) = 0 := by
        rw [List.findIdx_cons]
        simp [hx]
      constructor
      · simp [lookupCore, hfind]
      · simp [lookupCore, hfind]

/-- `findIdx` returns `k` exactly when the predicate first holds at `k`. -/
theorem findIdx_eq_of (p : ℚ → Bool) (l : List ℚ) (k : ℕ) (hk : k < l.length)
    (htrue : p (l.getD k 0) = true) (hfalse : ∀ i, i < k → p (l.getD i 0) = false) :
    l.findIdx p = k := by
  induction l generalizing k with
  | nil => simp at hk
  | cons x rest ih =>
      rw [List.findIdx_cons]
      cases k with
      | zero =>
          simp only [List.getD_cons_zero] at htrue
          rw [htrue]
          rfl
      | succ j =>
          have hx : p x = false := by
            have := hfalse 0 (Nat.succ_pos j)
            simpa using this
          rw [hx]
          show List.findIdx p rest + 1 = j + 1
          rw [ih j (by simpa using hk) (by simpa using htrue)
            (fun i hi => by simpa using hfalse (i + 1) (by omega))]

/-- At a target equal to the total length, the lower-bound search lands on
the last index with interpolation factor 1, provided the final edge has
positive length. -/
theorem lookupCore_total (n : ℕ) (els : List ℚ) (hpos : ∀ x ∈ els, 0 ≤ x)
    (hne : els ≠ []) (hlast : 0 < els.getLastD 0) :
    lookupCore false n (cumulativeSums 0 els) els.sum =
      ⟨els.length - 1, els.length, 1⟩ := by
  have hm1 : 1 ≤ els.length := by
    cases els with
    | nil => exact absurd rfl hne
    | cons x rest => simp
  have hLlen : (cumulativeSums 0 els).length = els.length := length_cumulativeSums 0 els
  have hgetD : ∀ i, i < els.length →
      (cumulativeSums 0 els).getD i 0 = (els.take (i + 1)).sum := by
    intro i hi
    rw [cumulativeSums_getD 0 els i (by omega)]
    ring
  have hsplit : els.sum = (els.take (els.length - 1)).sum + els.getLastD 0 :=
    sum_take_pred_add_last els hne
  have hstrict : ∀ i, i < els.length - 1 → (cumulativeSums 0 els).getD i 0 < els.sum := by
    intro i hi
    rw [hgetD i (by omega)]
    have h1 : (els.take (i + 1)).sum ≤ (els.take (els.length - 1)).sum :=
      take_sum_le els hpos (i + 1) (els.length - 1) (by omega)
    linarith
  have hlastval : (cumulativeSums 0 els).getD (els.length - 1) 0 = els.sum := by
    rw [hgetD (els.length - 1) (by omega)]
    have h2 : els.length - 1 + 1 = els.length := by omega
    rw [h2, List.take_length]
  have hfind : List.findIdx (fun x => decide (els.sum ≤ x)) (cumulativeSums 0 els)
      = els.length - 1 := by
    apply findIdx_eq_of _ _ _ (by omega)
    · rw [hlastval]
      simp
    · intro i hi
      have : i < els.length - 1 := by omega
      simp only [decide_eq_false_iff_not, not_le]
      exact hstrict i this
  have hmin : min (List.findIdx (fun x => decide (els.sum ≤ x)) (cumulativeSums 0 els))
      ((cumulativeSums 0 els).length - 1) = els.length - 1 := by
    rw [hfind, hLlen]
    exact min_self _
  unfold lookupCore
  simp only [hmin, LookupResult.mk.injEq]
  refine ⟨trivial, ?_, ?_⟩
  · rw [if_neg Bool.false_ne_true]
    omega
  · rcases Nat.lt_or_ge 1 els.length with hm2 | hm2
    · have hne0 : els.length - 1 ≠ 0 := by omega
      have hprev : (cumulativeSums 0 els).getD (els.length - 1 - 1) 0 =
          (els.take (els.length - 1)).sum := by
        rw [hgetD (els.length - 1 - 1) (by omega)]
        congr 2
        omega
      rw [if_neg hne0, hprev, hlastval]
      have hdiff : els.sum - (els.take (els.length - 1)).sum = els.getLastD 0 := by
        linarith
      rw [hdiff, div_self (ne_of_gt hlast)]
    · have hmeq : els.length - 1 = 0 := by omega
      rw [hmeq] at hlastval
      have hsum : els.sum = els.getLastD 0 := by
        rw [hmeq] at hsplit
        simpa using hsplit
      rw [hmeq, if_pos rfl, hlastval, sub_zero]
      rw [hsum, div_self (ne_of_gt hlast)]

/-- C2 (amended): for every spline with `N = evaluated_points_size() ≥ 2`,
`lookup_evaluated_factor(0.0)` returns evaluated index 0 with factor 0; and
for every non-cyclic such spline whose final evaluated edge has positive
length, `lookup_evaluated_factor(1.0)` returns `{N-2, N-1, 1.0}`.  (The
original claim fails for cyclic splines, whose cumulative lengths include
the closing edge, and for splines whose final edge has zero length.) -/
theorem lookup_factor_boundary
    (d : α → α → ℚ) (hd : ∀ a b, 0 ≤ d a b) (cyclic : Bool) (ps : List α)
    (hn : 2 ≤ ps.length) :
    ((spline_lookup_factor d cyclic ps 0).evaluated_index = 0 ∧
      (spline_lookup_factor d cyclic ps 0).factor = 0) ∧
    (cyclic = false →
      0 < ((edgePairs false ps).map (fun e => d e.1 e.2)).getLastD 0 →
      spline_lookup_factor d false ps 1 =
        ⟨ps.length - 2, ps.length - 1, 1⟩) := by
  have h2 : ¬ ps.length < 2 := by omega
  constructor
  · -- factor 0: the search lands on index 0 with factor 0
    have hedges : 1 ≤ evaluated_edges_size cyclic ps.length := by
      cases cyclic with
      | true =>
          rw [evaluated_edges_size, if_neg h2]
          simpa using by omega
      | false =>
          rw [evaluated_edges_size, if_neg h2]
          simpa using by omega
    have helslen : ((edgePairs cyclic ps).map (fun e => d e.1 e.2)).length =
        evaluated_edges_size cyclic ps.length := by
      rw [List.length_map, length_edgePairs]
    have hels : ∀ x ∈ (edgePairs cyclic ps).map (fun e => d e.1 e.2), 0 ≤ x := by
      intro x hx
      rcases List.mem_map.mp hx with ⟨e, _, rfl⟩
      exact hd e.1 e.2
    have hLlen : (evaluated_lengths d cyclic ps).length =
        evaluated_edges_size cyclic ps.length := length_evaluated_lengths d cyclic ps
    have hne : evaluated_lengths d cyclic ps ≠ [] := by
      rw [← List.length_pos, hLlen]
      omega
    have hhead : 0 ≤ (evaluated_lengths d cyclic ps).getD 0 0 := by
      rw [evaluated_lengths, cumulativeSums_getD 0 _ 0 (by omega)]
      have : 0 ≤ ((( edgePairs cyclic ps).map (fun e => d e.1 e.2)).take 1).sum :=
        List.sum_nonneg fun x hx => hels x (List.take_subset _ _ hx)
      linarith
    have htarget : max (0 : ℚ) (min 0 1) * (evaluated_lengths d cyclic ps).getLastD 0
        = 0 := by norm_num
    unfold spline_lookup_factor lookup_evaluated_factor
    rw [htarget]
    exact lookupCore_zero cyclic ps.length _ hne hhead
  · intro hcyc hlast
    subst hcyc
    have hedges : evaluated_edges_size false ps.length = ps.length - 1 := by
      rw [evaluated_edges_size, if_neg h2]
      simp
    have helslen : ((edgePairs false ps).map (fun e => d e.1 e.2)).length =
        ps.length - 1 := by
      rw [List.length_map, length_edgePairs, hedges]
    have hels : ∀ x ∈ (edgePairs false ps).map (fun e => d e.1 e.2), 0 ≤ x := by
      intro x hx
      rcases List.mem_map.mp hx with ⟨e, _, rfl⟩
      exact hd e.1 e.2
    have helsne : (edgePairs false ps).map (fun e => d e.1 e.2) ≠ [] := by
      rw [← List.length_pos, helslen]
      omega
    have htot : (evaluated_lengths d false ps).getLastD 0 =
        ((edgePairs false ps).map (fun e => d e.1 e.2)).sum := by
      rw [getLastD_eq_getD, length_evaluated_lengths, hedges, evaluated_lengths,
        cumulativeSums_getD 0 _ _ (by rw [helslen]; omega)]
      have h3 : ps.length - 1 - 1 + 1 = ps.length - 1 := by omega
      rw [h3, ← helslen, List.take_length]
      ring
    have htarget : max (0 : ℚ) (min 1 1) * (evaluated_lengths d false ps).getLastD 0
        = ((edgePairs false ps).map (fun e => d e.1 e.2)).sum := by
      rw [htot]
      norm_num
    unfold spline_lookup_factor lookup_evaluated_factor
    rw [htarget, evaluated_lengths,
      lookupCore_total ps.length _ hels helsne hlast, helslen]
    simp only [LookupResult.mk.injEq]
    refine ⟨by omega, trivial, trivial⟩

/-- Concrete spline exhibiting C2's failure: a cyclic 3-point polyline on the
rational line.  At factor 1 the lookup lands on the closing edge, so the
evaluated index is `N-1 = 2`, not the claimed `N-2 = 1`. -/
theorem lookup_factor_boundary_counterexample :
    ¬ ((spline_lookup_factor qdist true [(0 : ℚ), 1, 3] 1).evaluated_index = 3 - 2) := by
  norm_num [spline_lookup_factor, lookup_evaluated_factor, lookupCore,
    evaluated_lengths, edgePairs, cumulativeSums, qdist, List.findIdx_cons,
    List.getLastD]

theorem lookup_factor_boundary_witness :
    (∀ a b : ℚ, 0 ≤ qdist a b) ∧ (2 ≤ ([(0 : ℚ), 1, 3] : List ℚ).length) ∧
    (((spline_lookup_factor qdist false [(0 : ℚ), 1, 3] 0).evaluated_index = 0 ∧
      (spline_lookup_factor qdist false [(0 : ℚ), 1, 3] 0).factor = 0) ∧
    (false = false →
      0 < ((edgePairs false [(0 : ℚ), 1, 3]).map (fun e => qdist e.1 e.2)).getLastD 0 →
      spline_lookup_factor qdist false [(0 : ℚ), 1, 3] 1 =
        ⟨([(0 : ℚ), 1, 3] : List ℚ).length - 2, ([(0 : ℚ), 1, 3] : List ℚ).length - 1, 1⟩)) :=
  ⟨qdist_nonneg, by norm_num,
    lookup_factor_boundary qdist qdist_nonneg false
      [(0 : ℚ), 1, 3] (by norm_num)⟩

/-! ## NURBS variant (`NURBSpline`)

The header declares knot mode, order, weights, the knot vector cache, the
basis cache (`{weights, start_index}` with `start_index` documented as "the
first control point index with a non-zero weight") and the position cache.
The bodies of `calculate_knots`, `calculate_basis_cache` and
`evaluated_positions` are modelled from the spec: a non-decreasing knot
vector of length `size + order (+1 if cyclic)` whose clamping is selected
by the mode, Cox–de Boor rational basis weights localized to `order`
consecutive control points, and the rational weighted sum
`Σ wⱼ·Pⱼ / Σ wⱼ` per evaluated point. -/

/-- `NURBSpline::KnotsMode` (header lines 313–317). -/
inductive KnotsMode where
  | Normal
  | EndPoint
  | Bezier
deriving DecidableEq, Repr

/-- Control-point data and curve-level parameters of `NURBSpline`
(header lines 329–340), the cyclic flag of the `Spline` base included. -/
structure NURBSpline where
  positions : List Float3
  radii : List ℚ
  tilts : List ℚ
  weights : List ℚ
  resolution : ℕ
  order : ℕ
  is_cyclic : Bool
  knots_mode : KnotsMode

/-- `Spline::size()`: the number of control points. -/
def NURBSpline.size (sp : NURBSpline) : ℕ := sp.positions.length

/-- Modelled from the spec: `segments_size() = size()` if cyclic, else
`size() - 1` (0 for a single point, by truncated subtraction). -/
def segments_size (cyclic : Bool) (n : ℕ) : ℕ := if cyclic then n else n - 1

/-- Modelled from the spec: `NURBSpline::check_valid_size_and_order()`
enforces `size() ≥ order`. -/
def NURBSpline.check_valid_size_and_order (sp : NURBSpline) : Bool :=
  decide (sp.order ≤ sp.size)

/-- `NURBSpline::knots_size()`: knot vector length is
control-point count + order, plus 1 when cyclic. -/
def NURBSpline.knots_size (sp : NURBSpline) : ℕ :=
  sp.size + sp.order + (if sp.is_cyclic then 1 else 0)

/-- Modelled from the spec: the value of knot `i` for a non-cyclic spline.
`Normal` is a uniform vector with no clamping; `EndPoint` repeats the first
and last `order` knots (clamped endpoints); `Bezier` gives every knot value
multiplicity `order`. -/
def knotValue (mode : KnotsMode) (s o i : ℕ) : ℚ :=
  match mode with
  | .Normal => (i : ℚ)
  | .EndPoint => if i < o then 0 else if s ≤ i then ((s + 1 - o : ℕ) : ℚ)
      else ((i + 1 - o : ℕ) : ℚ)
  | .Bezier => ((i / o : ℕ) : ℚ)

/-- Modelled from the spec: `NURBSpline::calculate_knots()` — a
non-decreasing knot vector of length `knots_size()`; cyclic splines use the
uniform vector (the extra knot accounts for the cyclic wrap). -/
def calculate_knots (sp : NURBSpline) : List ℚ :=
  (List.range sp.knots_size).map
    (knotValue (if sp.is_cyclic then KnotsMode.Normal else sp.knots_mode) sp.size sp.order)

/-- Modelled from the spec: `NURBSpline::evaluated_points_size()` — the
resolution scales sample density uniformly along the whole curve; an
invalid spline produces no evaluated points. -/
def NURBSpline.evaluated_points_size (sp : NURBSpline) : ℕ :=
  if sp.check_valid_size_and_order then sp.resolution * segments_size sp.is_cyclic sp.size
  else 0

/-- The curve parameter of evaluated point `j`: uniform steps from
`knots[order-1]` across the valid domain (up to `knots[size]`, or the
wrapped end for cyclic splines). -/
def evalParameterK (knots : List ℚ) (sp : NURBSpline) (j : ℕ) : ℚ :=
  let start := knots.getD (sp.order - 1) 0
  let stop := if sp.is_cyclic then knots.getD (sp.size + sp.order - 1) 0
    else knots.getD sp.size 0
  start + j * ((stop - start) /
    (evaluated_edges_size sp.is_cyclic sp.evaluated_points_size : ℚ))

/-- Degree-1 (order-1) B-spline basis: the indicator of the closed span
`[knots i, knots (i+1)]`, zero on an empty span. -/
def basisDegree1 (knots : List ℚ) (i : ℕ) (u : ℚ) : ℚ :=
  if knots.getD i 0 ≠ knots.getD (i + 1) 0 ∧ knots.getD i 0 ≤ u ∧ u ≤ knots.getD (i + 1) 0
  then 1 else 0

/-- Cox–de Boor recursion for the order-`k` basis function of control point
`i` (division by zero yields 0, matching the guarded evaluation). -/
def basisFunction (knots : List ℚ) : ℕ → ℕ → ℚ → ℚ
  | 0, _, _ => 0
  | 1, i, u => basisDegree1 knots i u
  | k + 2, i, u =>
      (u - knots.getD i 0) / (knots.getD (i + k + 1) 0 - knots.getD i 0) *
        basisFunction knots (k + 1) i u +
      (knots.getD (i + k + 2) 0 - u) / (knots.getD (i + k + 2) 0 - knots.getD (i + 1) 0) *
        basisFunction knots (k + 1) (i + 1) u

/-- The rational influence of control point `i` on evaluated point `j`:
basis function times the control point's weight. -/
def basisInfluenceK (knots : List ℚ) (sp : NURBSpline) (j i : ℕ) : ℚ :=
  basisFunction knots sp.order i (evalParameterK knots sp j) * sp.weights.getD i 1

/-- `NURBSpline::BasisCache` (header lines 320–327): the influence at each
control point `i + start_index`, where `start_index` is the first control
point index with a non-zero weight. -/
structure BasisCache where
  weights : List ℚ
  start_index : ℕ

/-- Modelled from the spec: the basis cache entry of evaluated point `j` —
the influences over all control points, with the leading zeros dropped and
`start_index` recording how many were dropped. -/
def calculate_basis_cache_entryK (knots : List ℚ) (sp : NURBSpline) (j : ℕ) : BasisCache :=
  let full := (List.range sp.size).map (fun i => basisInfluenceK knots sp j i)
  ⟨full.drop (full.findIdx (fun x => decide (x ≠ 0))),
    full.findIdx (fun x => decide (x ≠ 0))⟩

/-- The weight a basis cache entry assigns to control point `i`. -/
def BasisCache.weightAt (b : BasisCache) (i : ℕ) : ℚ :=
  if b.start_index ≤ i then b.weights.getD (i - b.start_index) 0 else 0

/-- Modelled from the spec: position of evaluated point `j`, the rational
weighted sum `Σ wⱼ·Pⱼ / Σ wⱼ` over its basis influences. -/
def evaluated_positionK (knots : List ℚ) (sp : NURBSpline) (j : ℕ) : Float3 :=
  let den := ∑ i ∈ Finset.range sp.size, basisInfluenceK knots sp j i
  ⟨(∑ i ∈ Finset.range sp.size,
      basisInfluenceK knots sp j i * (sp.positions.getD i Float3.zero).x) / den,
   (∑ i ∈ Finset.range sp.size,
      basisInfluenceK knots sp j i * (sp.positions.getD i Float3.zero).y) / den,
   (∑ i ∈ Finset.range sp.size,
      basisInfluenceK knots sp j i * (sp.positions.getD i Float3.zero).z) / den⟩

/-- Modelled from the spec: `NURBSpline::evaluated_positions()` — empty for
an invalid spline, otherwise one position per evaluated point. -/
def NURBSpline.evaluated_positions (sp : NURBSpline) : List Float3 :=
  if sp.check_valid_size_and_order
  then (List.range sp.evaluated_points_size).map (evaluated_positionK (calculate_knots sp) sp)
  else []

/-- C3: a NURBS spline with fewer control points than its order is reported
invalid and evaluates to an empty position sequence (no out-of-bounds
access is possible: the model is total). -/
theorem nurbs_invalid_empty (sp : NURBSpline) (h : sp.size < sp.order) :
    sp.check_valid_size_and_order = false ∧ sp.evaluated_positions = [] ∧
    sp.evaluated_points_size = 0 := by
  have hv : sp.check_valid_size_and_order = false :=
    decide_eq_false (Nat.not_le.mpr h)
  refine ⟨hv, ?_, ?_⟩
  · unfold NURBSpline.evaluated_positions
    rw [hv]
    simp
  · unfold NURBSpline.evaluated_points_size
    rw [hv]
    simp

/-- A one-point NURBS spline of order 2 (invalid: `size() < order`). -/
def nurbsInvalidExample : NURBSpline :=
  ⟨[Float3.zero], [1], [0], [1], 12, 2, false, .Normal⟩

theorem nurbs_invalid_empty_witness :
    nurbsInvalidExample.size < nurbsInvalidExample.order ∧
    (nurbsInvalidExample.check_valid_size_and_order = false ∧
      nurbsInvalidExample.evaluated_positions = [] ∧
      nurbsInvalidExample.evaluated_points_size = 0) :=
  ⟨by decide, nurbs_invalid_empty nurbsInvalidExample (by decide)⟩

theorem chain_le_map_range (f : ℕ → ℚ) (n : ℕ) (hf : ∀ i, f i ≤ f (i + 1)) :
    List.Chain' (· ≤ ·) ((List.range n).map f) := by
  rw [List.chain'_map]
  cases n with
  | zero => simp
  | succ k => exact (List.chain'_range_succ (fun a b => f a ≤ f b) k).mpr fun m _ => hf m

theorem knotValue_mono (m : KnotsMode) (s o i : ℕ) :
    knotValue m s o i ≤ knotValue m s o (i + 1) := by
  cases m with
  | Normal =>
      simp only [knotValue]
      exact_mod_cast Nat.le_succ i
  | EndPoint =>
      unfold knotValue
      split_ifs
      all_goals try exact le_refl 0
      all_goals try exact Nat.cast_nonneg _
      all_goals exact Nat.cast_le.mpr (by omega)
  | Bezier =>
      simp only [knotValue]
      exact Nat.cast_le.mpr (Nat.div_le_div_right (Nat.le_succ i))

/-- C4: for every NURBS spline, `calculate_knots()` produces a knot vector
of length control-point count + order (+1 when cyclic) whose values are
monotonically non-decreasing. -/
theorem calculate_knots_spec (sp : NURBSpline) :
    (calculate_knots sp).length =
      sp.size + sp.order + (if sp.is_cyclic then 1 else 0) ∧
    List.Chain' (· ≤ ·) (calculate_knots sp) := by
  constructor
  · rw [calculate_knots, List.length_map, List.length_range, NURBSpline.knots_size]
  · exact chain_le_map_range _ _ fun i => knotValue_mono _ sp.size sp.order i

theorem getD_map_range {β : Type} (f : ℕ → β) (d : β) (n i : ℕ) (hi : i < n) :
    ((List.range n).map f).getD i d = f i := by
  rw [List.getD_eq_getElem?_getD, List.getElem?_map, List.getElem?_range hi]
  rfl

theorem calculate_knots_getD (sp : NURBSpline) (hcyc : sp.is_cyclic = false)
    (hmode : sp.knots_mode = KnotsMode.Normal) (i : ℕ)
    (hi : i < sp.size + sp.order) :
    (calculate_knots sp).getD i 0 = (i : ℚ) := by
  have hks : sp.knots_size = sp.size + sp.order := by
    rw [NURBSpline.knots_size, hcyc]
    simp
  unfold calculate_knots
  rw [hcyc, hmode, hks, getD_map_range _ _ _ _ hi]
  simp [knotValue]

/-- The closed form of the order-2 basis function over uniform integer
knots: a hat function on `[i, i+2]` with peak at `i+1` (closed spans). -/
def basis2 (i : ℕ) (u : ℚ) : ℚ :=
  (u - i) * (if (i : ℚ) ≤ u ∧ u ≤ (i : ℚ) + 1 then 1 else 0) +
  ((i : ℚ) + 2 - u) * (if (i : ℚ) + 1 ≤ u ∧ u ≤ (i : ℚ) + 2 then 1 else 0)

theorem basisFunction_eq_basis2 (knots : List ℚ) (s : ℕ)
    (hK : ∀ i, i < s + 2 → knots.getD i 0 = (i : ℚ)) (i : ℕ) (hi : i < s) (u : ℚ) :
    basisFunction knots 2 i u = basis2 i u := by
  have k0 := hK i (by omega)
  have k1 := hK (i + 1) (by omega)
  have k2 := hK (i + 2) (by omega)
  have c1 : ((i + 1 : ℕ) : ℚ) = (i : ℚ) + 1 := by push_cast; ring
  have c2 : ((i + 2 : ℕ) : ℚ) = (i : ℚ) + 2 := by push_cast; ring
  have n1 : ((i : ℚ)) ≠ (i : ℚ) + 1 := by intro hEq; linarith
  have n2 : ((i : ℚ) + 1) ≠ (i : ℚ) + 2 := by intro hEq; linarith
  show (u - knots.getD i 0) / (knots.getD (i + 0 + 1) 0 - knots.getD i 0) *
        basisFunction knots 1 i u +
      (knots.getD (i + 0 + 2) 0 - u) /
        (knots.getD (i + 0 + 2) 0 - knots.getD (i + 1) 0) *
        basisFunction knots 1 (i + 1) u = basis2 i u
  simp only [Nat.add_zero, basisFunction, basisDegree1, k0, k1, k2, c1, c2, basis2,
    n1, n2, ne_eq, not_false_eq_true, true_and]
  have d1 : (i : ℚ) + 1 - i = 1 := by ring
  have d2 : (i : ℚ) + 2 - ((i : ℚ) + 1) = 1 := by ring
  rw [d1, d2, div_one, div_one]

theorem chain_getD_mono (l : List ℚ) (hc : List.Chain' (· ≤ ·) l) :
    ∀ b a, a ≤ b → b < l.length → l.getD a 0 ≤ l.getD b 0 := by
  have hadj : ∀ i, i < l.length - 1 → l.getD i 0 ≤ l.getD (i + 1) 0 := by
    intro i hi
    have h := (List.chain'_iff_get.mp hc) i hi
    rw [List.getD_eq_getElem?_getD, List.getD_eq_getElem?_getD,
      List.getElem?_eq_getElem (show i < l.length by omega),
      List.getElem?_eq_getElem (show i + 1 < l.length by omega)]
    simpa using h
  intro b
  induction b with
  | zero =>
      intro a ha _
      have ha0 : a = 0 := by omega
      subst ha0
      exact le_refl _
  | succ n ih =>
      intro a ha hb
      rcases Nat.lt_or_ge a (n + 1) with h | h
      · have h1 : l.getD a 0 ≤ l.getD n 0 := ih a (by omega) (by omega)
        have h2 : l.getD n 0 ≤ l.getD (n + 1) 0 := hadj n (by omega)
        linarith
      · have ha1 : a = n + 1 := by omega
        subst ha1
        exact le_refl _

theorem calculate_knots_getD_mono (sp : NURBSpline) (a b : ℕ) (hab : a ≤ b)
    (hb : b < sp.size + sp.order) :
    (calculate_knots sp).getD a 0 ≤ (calculate_knots sp).getD b 0 := by
  obtain ⟨hlen, hchain⟩ := calculate_knots_spec sp
  exact chain_getD_mono _ hchain b a hab (by rw [hlen]; split <;> omega)

theorem ramp_term_spec (A B u : ℚ) (hAB : A ≤ B) (χ : ℚ)
    (hχ : χ = if A ≠ B ∧ A ≤ u ∧ u ≤ B then 1 else 0) :
    0 ≤ (u - A) / (B - A) * χ ∧
      ((u - A) / (B - A) * χ ≠ 0 ↔ (A < u ∧ u ≤ B)) := by
  subst hχ
  by_cases hcond : A ≠ B ∧ A ≤ u ∧ u ≤ B
  · rw [if_pos hcond, mul_one]
    have hlt : A < B := lt_of_le_of_ne hAB hcond.1
    constructor
    · exact div_nonneg (by linarith [hcond.2.1]) (by linarith)
    · rw [div_ne_zero_iff]
      constructor
      · rintro ⟨hne, _⟩
        exact ⟨lt_of_le_of_ne hcond.2.1 (Ne.symm (sub_ne_zero.mp hne)), hcond.2.2⟩
      · rintro ⟨hgt, _⟩
        exact ⟨sub_ne_zero.mpr (ne_of_gt hgt), sub_ne_zero.mpr (ne_of_gt hlt)⟩
  · rw [if_neg hcond, mul_zero]
    refine ⟨le_refl 0, ?_⟩
    constructor
    · intro h
      exact absurd rfl h
    · rintro ⟨h1, h2⟩
      exact absurd ⟨ne_of_lt (lt_of_lt_of_le h1 h2), le_of_lt h1, h2⟩ hcond

theorem fall_term_spec (B C u : ℚ) (hBC : B ≤ C) (χ : ℚ)
    (hχ : χ = if B ≠ C ∧ B ≤ u ∧ u ≤ C then 1 else 0) :
    0 ≤ (C - u) / (C - B) * χ ∧
      ((C - u) / (C - B) * χ ≠ 0 ↔ (B ≤ u ∧ u < C)) := by
  subst hχ
  by_cases hcond : B ≠ C ∧ B ≤ u ∧ u ≤ C
  · rw [if_pos hcond, mul_one]
    have hlt : B < C := lt_of_le_of_ne hBC hcond.1
    constructor
    · exact div_nonneg (by linarith [hcond.2.2]) (by linarith)
    · rw [div_ne_zero_iff]
      constructor
      · rintro ⟨hne, _⟩
        exact ⟨hcond.2.1, lt_of_le_of_ne hcond.2.2 (Ne.symm (sub_ne_zero.mp hne))⟩
      · rintro ⟨_, h2⟩
        exact ⟨sub_ne_zero.mpr (ne_of_gt h2), sub_ne_zero.mpr (ne_of_gt hlt)⟩
  · rw [if_neg hcond, mul_zero]
    refine ⟨le_refl 0, ?_⟩
    constructor
    · intro h
      exact absurd rfl h
    · rintro ⟨h1, h2⟩
      exact absurd ⟨ne_of_lt (lt_of_le_of_lt h1 h2), h1, le_of_lt h2⟩ hcond

/-- Over any locally non-decreasing knots, the order-2 basis value at `u` is
non-negative, and non-zero exactly on the half-open hat support
`(knots i, knots (i+1)] ∪ [knots (i+1), knots (i+2))`. -/
theorem basisFunction_order2_spec (knots : List ℚ) (i : ℕ) (u : ℚ)
    (h1 : knots.getD i 0 ≤ knots.getD (i + 1) 0)
    (h2 : knots.getD (i + 1) 0 ≤ knots.getD (i + 2) 0) :
    0 ≤ basisFunction knots 2 i u ∧
      (basisFunction knots 2 i u ≠ 0 ↔
        ((knots.getD i 0 < u ∧ u ≤ knots.getD (i + 1) 0) ∨
         (knots.getD (i + 1) 0 ≤ u ∧ u < knots.getD (i + 2) 0))) := by
  obtain ⟨hT1, hT1iff⟩ := ramp_term_spec (knots.getD i 0) (knots.getD (i + 1) 0) u h1
    (basisDegree1 knots i u) rfl
  obtain ⟨hT2, hT2iff⟩ := fall_term_spec (knots.getD (i + 1) 0) (knots.getD (i + 2) 0) u h2
    (basisDegree1 knots (i + 1) u) rfl
  have hform : basisFunction knots 2 i u =
      (u - knots.getD i 0) / (knots.getD (i + 1) 0 - knots.getD i 0) *
        basisDegree1 knots i u +
      (knots.getD (i + 2) 0 - u) /
          (knots.getD (i + 2) 0 - knots.getD (i + 1) 0) *
        basisDegree1 knots (i + 1) u := by
    show (u - knots.getD i 0) / (knots.getD (i + 0 + 1) 0 - knots.getD i 0) *
        basisFunction knots 1 i u +
      (knots.getD (i + 0 + 2) 0 - u) /
          (knots.getD (i + 0 + 2) 0 - knots.getD (i + 1) 0) *
        basisFunction knots 1 (i + 1) u = _
    simp only [Nat.add_zero, basisFunction]
  rw [hform]
  refine ⟨add_nonneg hT1 hT2, ?_⟩
  rw [← hT1iff, ← hT2iff]
  constructor
  · intro hne
    by_contra hcon
    push_neg at hcon
    exact hne (by rw [hcon.1, hcon.2, add_zero])
  · rintro (h | h) <;> intro hz
    · have hpos := lt_of_le_of_ne hT1 (Ne.symm h)
      linarith
    · have hpos := lt_of_le_of_ne hT2 (Ne.symm h)
      linarith

/-- Two control points both carrying non-zero order-2 basis weight at the
same parameter are at most one index apart, provided no knot value repeats
three times. -/
theorem order2_support_pair (K : ℕ → ℚ) (s : ℕ)
    (hmono : ∀ a b, a ≤ b → b ≤ s + 1 → K a ≤ K b)
    (hnt : ∀ m, m + 2 ≤ s + 1 → K m < K (m + 2)) (u : ℚ) (i i' : ℕ)
    (hi' : i' < s) (hii' : i + 2 ≤ i')
    (hD : (K i < u ∧ u ≤ K (i + 1)) ∨ (K (i + 1) ≤ u ∧ u < K (i + 2)))
    (hD' : (K i' < u ∧ u ≤ K (i' + 1)) ∨ (K (i' + 1) ≤ u ∧ u < K (i' + 2))) :
    False := by
  rcases hD with ⟨h1, h2⟩ | ⟨h1, h2⟩ <;> rcases hD' with ⟨h3, h4⟩ | ⟨h3, h4⟩
  · have hm := hmono (i + 1) i' (by omega) (by omega)
    linarith
  · have hm := hmono (i + 3) (i' + 1) (by omega) (by omega)
    have hn := hnt (i + 1) (by omega)
    linarith
  · have hm := hmono (i + 2) i' (by omega) (by omega)
    linarith
  · have hm := hmono (i + 2) (i' + 1) (by omega) (by omega)
    linarith

/-- For any parameter in the valid domain (`K 1 ≤ u ≤ K s`, or strictly
below `K (s+1)` in the cyclic wrap), some control point carries non-zero
order-2 basis weight. -/
theorem order2_exists_nonzero (K : ℕ → ℚ) (s : ℕ) (hs : 2 ≤ s)
    (hmono : ∀ a b, a ≤ b → b ≤ s + 1 → K a ≤ K b)
    (hnt : ∀ m, m + 2 ≤ s + 1 → K m < K (m + 2)) (u : ℚ)
    (hu1 : K 1 ≤ u) (hu2 : u ≤ K s ∨ u < K (s + 1)) :
    ∃ i, i < s ∧
      ((K i < u ∧ u ≤ K (i + 1)) ∨ (K (i + 1) ≤ u ∧ u < K (i + 2))) := by
  by_cases hint : u ≤ K s
  · have AUX : ∀ k j, j + k = s → 1 ≤ j → K j ≤ u → ∃ i, i < s ∧
        ((K i < u ∧ u ≤ K (i + 1)) ∨ (K (i + 1) ≤ u ∧ u < K (i + 2))) := by
      intro k
      induction k with
      | zero =>
          intro j hjk hj1 hKj
          have hjs : j = s := by omega
          subst hjs
          by_cases hlt : K (j - 1) < u
          · refine ⟨j - 1, by omega, Or.inl ⟨hlt, ?_⟩⟩
            rw [show j - 1 + 1 = j from by omega]
            exact hint
          · push_neg at hlt
            refine ⟨j - 2, by omega, Or.inl ⟨?_, ?_⟩⟩
            · have hn := hnt (j - 2) (by omega)
              rw [show j - 2 + 2 = j from by omega] at hn
              have hEq : K j = u := le_antisymm hKj hint
              linarith
            · rw [show j - 2 + 1 = j - 1 from by omega]
              exact hlt
      | succ k ih =>
          intro j hjk hj1 hKj
          by_cases hnext : K (j + 1) ≤ u
          · exact ih (j + 1) (by omega) (by omega) hnext
          · push_neg at hnext
            rcases eq_or_lt_of_le hKj with hEq | hLt
            · refine ⟨j - 1, by omega, Or.inr ⟨?_, ?_⟩⟩
              · rw [show j - 1 + 1 = j from by omega]
                exact hKj
              · rw [show j - 1 + 2 = j + 1 from by omega]
                exact hnext
            · exact ⟨j, by omega, Or.inl ⟨hLt, le_of_lt hnext⟩⟩
    exact AUX (s - 1) 1 (by omega) (le_refl 1) hu1
  · push_neg at hint
    rcases hu2 with h | h
    · exact absurd h (not_le.mpr hint)
    · refine ⟨s - 1, by omega, Or.inr ⟨?_, ?_⟩⟩
      · rw [show s - 1 + 1 = s from by omega]
        exact le_of_lt hint
      · rw [show s - 1 + 2 = s + 1 from by omega]
        exact h

/-- No knot of an order-2 spline repeats three times, in any knots mode and
for cyclic splines: knots two indices apart are strictly ordered. -/
theorem calculate_knots_no_triple (sp : NURBSpline) (horder : sp.order = 2)
    (hs : 2 ≤ sp.size) (m : ℕ) (hm : m + 2 ≤ sp.size + 1) :
    (calculate_knots sp).getD m 0 < (calculate_knots sp).getD (m + 2) 0 := by
  have hks : sp.size + 2 ≤ sp.knots_size := by
    rw [NURBSpline.knots_size, horder]
    split <;> omega
  unfold calculate_knots
  rw [getD_map_range _ _ _ _ (by omega), getD_map_range _ _ _ _ (by omega), horder]
  cases hmm : (if sp.is_cyclic then KnotsMode.Normal else sp.knots_mode) with
  | Normal => exact Nat.cast_lt.mpr (by omega)
  | EndPoint =>
      simp only [knotValue]
      split_ifs <;>
        first
          | exact Nat.cast_lt.mpr (by omega)
          | exact Nat.cast_pos.mpr (by omega)
  | Bezier => exact Nat.cast_lt.mpr (by omega)

theorem calculate_knots_getD_cyclic (sp : NURBSpline) (hcyc : sp.is_cyclic = true)
    (i : ℕ) (hi : i < sp.size + sp.order + 1) :
    (calculate_knots sp).getD i 0 = (i : ℚ) := by
  have hks : sp.knots_size = sp.size + sp.order + 1 := by
    rw [NURBSpline.knots_size, hcyc]
    simp
  unfold calculate_knots
  rw [hks, getD_map_range _ _ _ _ hi, hcyc]
  rfl

theorem affine_sample_bounds (a b : ℚ) (hab : a ≤ b) (j E : ℕ) (hjE : j ≤ E) :
    a ≤ a + (j : ℚ) * ((b - a) / (E : ℚ)) ∧
      a + (j : ℚ) * ((b - a) / (E : ℚ)) ≤ b := by
  rcases Nat.eq_zero_or_pos E with hE0 | hEpos
  · subst hE0
    have hj0 : j = 0 := by omega
    subst hj0
    simp [hab]
  · have hEq : (0 : ℚ) < (E : ℚ) := by exact_mod_cast hEpos
    have hstep : (0 : ℚ) ≤ (b - a) / (E : ℚ) := div_nonneg (by linarith) (le_of_lt hEq)
    have hjq : (j : ℚ) ≤ (E : ℚ) := by exact_mod_cast hjE
    constructor
    · have h := mul_nonneg (Nat.cast_nonneg j) hstep
      linarith
    · have hmul : (j : ℚ) * ((b - a) / (E : ℚ)) ≤ (E : ℚ) * ((b - a) / (E : ℚ)) :=
        mul_le_mul_of_nonneg_right hjq hstep
      have hcancel : (E : ℚ) * ((b - a) / (E : ℚ)) = b - a := by
        field_simp
      linarith

theorem affine_sample_bounds_strict (a b : ℚ) (hab : a < b) (j E : ℕ)
    (hE : 0 < E) (hjE : j < E) :
    a ≤ a + (j : ℚ) * ((b - a) / (E : ℚ)) ∧
      a + (j : ℚ) * ((b - a) / (E : ℚ)) < b := by
  have hEq : (0 : ℚ) < (E : ℚ) := by exact_mod_cast hE
  have hstep : (0 : ℚ) < (b - a) / (E : ℚ) := div_pos (by linarith) hEq
  have hjq : (j : ℚ) ≤ (E : ℚ) - 1 := by
    have h : (j : ℚ) + 1 ≤ (E : ℚ) := by exact_mod_cast hjE
    linarith
  constructor
  · have h := mul_nonneg (Nat.cast_nonneg j) (le_of_lt hstep)
    linarith
  · have hmul : (j : ℚ) * ((b - a) / (E : ℚ)) ≤
        ((E : ℚ) - 1) * ((b - a) / (E : ℚ)) :=
      mul_le_mul_of_nonneg_right hjq (le_of_lt hstep)
    have hexp : ((E : ℚ) - 1) * ((b - a) / (E : ℚ)) =
        (E : ℚ) * ((b - a) / (E : ℚ)) - (b - a) / (E : ℚ) := by ring
    have hcancel : (E : ℚ) * ((b - a) / (E : ℚ)) = b - a := by field_simp
    linarith

/-- The sample parameter of evaluated point `j` stays in the valid domain:
at or above the first interior knot, and at most the last valid knot
(strictly below the wrapped end knot when cyclic). -/
theorem evalParameter_bounds (sp : NURBSpline) (horder : sp.order = 2)
    (hs : 2 ≤ sp.size) (j : ℕ) (hj : j < sp.evaluated_points_size) :
    (calculate_knots sp).getD 1 0 ≤ evalParameterK (calculate_knots sp) sp j ∧
    (evalParameterK (calculate_knots sp) sp j ≤ (calculate_knots sp).getD sp.size 0 ∨
      evalParameterK (calculate_knots sp) sp j <
        (calculate_knots sp).getD (sp.size + 1) 0) := by
  have hvalid : sp.check_valid_size_and_order = true := by
    by_contra hcon
    have hzero : sp.evaluated_points_size = 0 := by
      unfold NURBSpline.evaluated_points_size
      rw [if_neg hcon]
    omega
  have hidx : sp.order - 1 = 1 := by omega
  cases hcy : sp.is_cyclic with
  | false =>
      have hform : evalParameterK (calculate_knots sp) sp j =
          (calculate_knots sp).getD 1 0 + (j : ℚ) *
            (((calculate_knots sp).getD sp.size 0 - (calculate_knots sp).getD 1 0) /
              ((evaluated_edges_size false sp.evaluated_points_size : ℕ) : ℚ)) := by
        unfold evalParameterK
        rw [hcy, if_neg Bool.false_ne_true, hidx]
      have hK1s : (calculate_knots sp).getD 1 0 ≤ (calculate_knots sp).getD sp.size 0 :=
        calculate_knots_getD_mono sp 1 sp.size (by omega) (by omega)
      have hjE : j ≤ evaluated_edges_size false sp.evaluated_points_size := by
        unfold evaluated_edges_size
        rcases Nat.lt_or_ge sp.evaluated_points_size 2 with hev | hev
        · rw [if_pos hev]
          omega
        · rw [if_neg (by omega)]
          show j ≤ sp.evaluated_points_size - 1
          omega
      obtain ⟨hlo, hhi⟩ := affine_sample_bounds ((calculate_knots sp).getD 1 0)
        ((calculate_knots sp).getD sp.size 0) hK1s j
        (evaluated_edges_size false sp.evaluated_points_size) hjE
      rw [hform]
      exact ⟨hlo, Or.inl hhi⟩
  | true =>
      have hKc : ∀ i, i < sp.size + 3 → (calculate_knots sp).getD i 0 = (i : ℚ) := by
        intro i hi
        exact calculate_knots_getD_cyclic sp hcy i (by omega)
      have hevalEq : sp.evaluated_points_size = sp.resolution * sp.size := by
        unfold NURBSpline.evaluated_points_size
        rw [if_pos hvalid, hcy]
        rfl
      have hr : 0 < sp.resolution := by
        by_contra hcon
        push_neg at hcon
        have h0 : sp.resolution = 0 := by omega
        rw [hevalEq, h0, zero_mul] at hj
        omega
      have h2e : 2 ≤ sp.evaluated_points_size := by
        rw [hevalEq]
        calc 2 = 1 * 2 := by omega
        _ ≤ sp.resolution * sp.size := Nat.mul_le_mul hr hs
      have hE : evaluated_edges_size true sp.evaluated_points_size =
          sp.evaluated_points_size := by
        unfold evaluated_edges_size
        rw [if_neg (by omega)]
        rfl
      have hidx2 : sp.size + sp.order - 1 = sp.size + 1 := by omega
      have hform : evalParameterK (calculate_knots sp) sp j =
          1 + (j : ℚ) * ((((sp.size : ℚ) + 1) - 1) /
            ((evaluated_edges_size true sp.evaluated_points_size : ℕ) : ℚ)) := by
        unfold evalParameterK
        rw [hcy, if_pos rfl, hidx, hidx2, hKc 1 (by omega), hKc (sp.size + 1) (by omega)]
        push_cast
        ring
      have hab : (1 : ℚ) < (sp.size : ℚ) + 1 := by
        have h2q : (2 : ℚ) ≤ (sp.size : ℚ) := by exact_mod_cast hs
        linarith
      have hjE : j < evaluated_edges_size true sp.evaluated_points_size := by
        rw [hE]
        omega
      have hEpos : 0 < evaluated_edges_size true sp.evaluated_points_size := by
        rw [hE]
        omega
      obtain ⟨hlo, hhi⟩ := affine_sample_bounds_strict 1 ((sp.size : ℚ) + 1) hab j
        (evaluated_edges_size true sp.evaluated_points_size) hEpos hjE
      rw [hform]
      refine ⟨?_, Or.inr ?_⟩
      · rw [hKc 1 (by omega)]
        exact hlo
      · rw [hKc (sp.size + 1) (by omega)]
        push_cast
        linarith

theorem weightAt_entry (knots : List ℚ) (sp : NURBSpline) (j i : ℕ)
    (hi : i < sp.size) :
    (calculate_basis_cache_entryK knots sp j).weightAt i =
      basisInfluenceK knots sp j i := by
  unfold calculate_basis_cache_entryK BasisCache.weightAt
  set full := (List.range sp.size).map (fun i => basisInfluenceK knots sp j i)
    with hfull
  set st := full.findIdx (fun x => decide (x ≠ 0)) with hst
  have hlen : full.length = sp.size := by rw [hfull]; simp
  have hgetDfull : full.getD i 0 = basisInfluenceK knots sp j i := by
    rw [hfull]; exact getD_map_range _ _ _ _ hi
  show (if st ≤ i then (full.drop st).getD (i - st) 0 else 0) = _
  by_cases hcase : st ≤ i
  · rw [if_pos hcase, List.getD_eq_getElem?_getD, List.getElem?_drop]
    have hsti : st + (i - st) = i := by omega
    rw [hsti, ← List.getD_eq_getElem?_getD, hgetDfull]
  · rw [if_neg hcase]
    have hilt : i < st := Nat.lt_of_not_le hcase
    have hfalse := List.not_of_lt_findIdx (hst ▸ hilt)
    have hzero : full.getD i 0 = 0 := by
      rw [List.getD_eq_getElem?_getD,
        List.getElem?_eq_getElem (show i < full.length by omega)]
      simpa using hfalse
    rw [← hgetDfull, hzero]

theorem sum_two_support (s k : ℕ) (hk : k + 1 < s) (f : ℕ → ℚ)
    (hzero : ∀ i, i < s → i ≠ k → i ≠ k + 1 → f i = 0) :
    ∑ i ∈ Finset.range s, f i = f k + f (k + 1) := by
  have hsub : ({k, k + 1} : Finset ℕ) ⊆ Finset.range s := by
    intro x hx
    rcases Finset.mem_insert.mp hx with h | h
    · subst h; exact Finset.mem_range.mpr (by omega)
    · rw [Finset.mem_singleton] at h; subst h; exact Finset.mem_range.mpr hk
  have hz : ∀ x ∈ Finset.range s, x ∉ ({k, k + 1} : Finset ℕ) → f x = 0 := by
    intro x hx hnx
    simp only [Finset.mem_insert, Finset.mem_singleton, not_or] at hnx
    exact hzero x (Finset.mem_range.mp hx) hnx.1 hnx.2
  rw [← Finset.sum_subset hsub hz, Finset.sum_pair (by omega : k ≠ k + 1)]

theorem convex_combination (a b wk wk1 xk xk1 : ℚ) (hden : 0 < a * wk + b * wk1) :
    (a * wk * xk + b * wk1 * xk1) / (a * wk + b * wk1) =
      (1 - b * wk1 / (a * wk + b * wk1)) * xk +
        b * wk1 / (a * wk + b * wk1) * xk1 := by
  field_simp

/-- Modelled from the spec: the basis cache entry of evaluated point `j`, as
populated by `NURBSpline::calculate_basis_cache()`. -/
def NURBSpline.basis_cache_entry (sp : NURBSpline) (j : ℕ) : BasisCache :=
  calculate_basis_cache_entryK (calculate_knots sp) sp j

/-- C6 (amended): for every valid NURBS spline of order 2 with positive
control-point weights — any knots mode, cyclic or not, with `size() ≥ 2` —
every evaluated point's basis cache entry assigns non-zero weight to at
most 2 consecutive control points, and every evaluated position is a
convex combination of those 2 consecutive control points (the curve is the
piecewise-linear interpolation of the control polygon).  (The original
"exactly 2" fails whenever the sample parameter coincides with a knot — in
particular at the very first evaluated point — where a single control point
receives all the weight.) -/
theorem nurbs_order2_piecewise_linear (sp : NURBSpline)
    (horder : sp.order = 2) (hs : 2 ≤ sp.size)
    (hw : sp.weights.length = sp.size) (hwpos : ∀ w ∈ sp.weights, 0 < w)
    (j : ℕ) (hj : j < sp.evaluated_points_size) :
    ∃ k, k + 1 < sp.size ∧
      (∀ i, i < sp.size →
        (sp.basis_cache_entry j).weightAt i ≠ 0 → i = k ∨ i = k + 1) ∧
      ∃ t : ℚ, 0 ≤ t ∧ t ≤ 1 ∧
        sp.evaluated_positions.getD j Float3.zero =
          Float3.lerp t (sp.positions.getD k Float3.zero)
            (sp.positions.getD (k + 1) Float3.zero) := by
  have hvalid : sp.check_valid_size_and_order = true :=
    decide_eq_true (by rw [horder]; exact hs)
  have hKmono : ∀ a b, a ≤ b → b ≤ sp.size + 1 →
      (calculate_knots sp).getD a 0 ≤ (calculate_knots sp).getD b 0 :=
    fun a b hab hb => calculate_knots_getD_mono sp a b hab (by omega)
  have hnt : ∀ m, m + 2 ≤ sp.size + 1 →
      (calculate_knots sp).getD m 0 < (calculate_knots sp).getD (m + 2) 0 :=
    fun m hm => calculate_knots_no_triple sp horder hs m hm
  set u := evalParameterK (calculate_knots sp) sp j with hu
  obtain ⟨hu1, hu2⟩ := evalParameter_bounds sp horder hs j hj
  rw [← hu] at hu1 hu2
  have hspec : ∀ i, i < sp.size →
      0 ≤ basisFunction (calculate_knots sp) 2 i u ∧
      (basisFunction (calculate_knots sp) 2 i u ≠ 0 ↔
        (((calculate_knots sp).getD i 0 < u ∧
            u ≤ (calculate_knots sp).getD (i + 1) 0) ∨
         ((calculate_knots sp).getD (i + 1) 0 ≤ u ∧
            u < (calculate_knots sp).getD (i + 2) 0))) := by
    intro i hi
    exact basisFunction_order2_spec (calculate_knots sp) i u
      (hKmono i (i + 1) (by omega) (by omega))
      (hKmono (i + 1) (i + 2) (by omega) (by omega))
  have hex : ∃ i, i < sp.size ∧ basisFunction (calculate_knots sp) 2 i u ≠ 0 := by
    obtain ⟨i, hi, hD⟩ := order2_exists_nonzero
      (fun m => (calculate_knots sp).getD m 0) sp.size hs hKmono hnt u hu1 hu2
    exact ⟨i, hi, (hspec i hi).2.mpr hD⟩
  have hmin := Nat.find_spec hex
  have hsupp : ∀ i, i < sp.size → basisFunction (calculate_knots sp) 2 i u ≠ 0 →
      Nat.find hex ≤ i ∧ i ≤ Nat.find hex + 1 := by
    intro i hi hne
    constructor
    · by_contra hcon
      push_neg at hcon
      exact Nat.find_min hex hcon ⟨hi, hne⟩
    · by_contra hcon
      push_neg at hcon
      exact order2_support_pair (fun m => (calculate_knots sp).getD m 0) sp.size
        hKmono hnt u (Nat.find hex) i hi (by omega)
        ((hspec _ hmin.1).2.mp hmin.2) ((hspec i hi).2.mp hne)
  obtain ⟨k, hk1, hksup, ha, hb, hab⟩ : ∃ k, k + 1 < sp.size ∧
      (∀ i, i < sp.size → basisFunction (calculate_knots sp) 2 i u ≠ 0 →
        i = k ∨ i = k + 1) ∧
      0 ≤ basisFunction (calculate_knots sp) 2 k u ∧
      0 ≤ basisFunction (calculate_knots sp) 2 (k + 1) u ∧
      0 < basisFunction (calculate_knots sp) 2 k u +
        basisFunction (calculate_knots sp) 2 (k + 1) u := by
    rcases Nat.lt_or_ge (Nat.find hex + 1) sp.size with hcase | hcase
    · refine ⟨Nat.find hex, hcase, ?_, (hspec _ hmin.1).1, (hspec _ hcase).1, ?_⟩
      · intro i hi hne
        have h := hsupp i hi hne
        omega
      · have h1 : 0 < basisFunction (calculate_knots sp) 2 (Nat.find hex) u :=
          lt_of_le_of_ne (hspec _ hmin.1).1 (Ne.symm hmin.2)
        have h2 := (hspec _ hcase).1
        linarith
    · have hfind : Nat.find hex = sp.size - 1 := by omega
      refine ⟨sp.size - 2, by omega, ?_, (hspec _ (by omega)).1, ?_, ?_⟩
      · intro i hi hne
        have hge := (hsupp i hi hne).1
        right
        omega
      · rw [show sp.size - 2 + 1 = sp.size - 1 from by omega]
        exact (hspec _ (by omega)).1
      · have h1 : 0 < basisFunction (calculate_knots sp) 2 (sp.size - 1) u := by
          have h2 := lt_of_le_of_ne (hspec _ hmin.1).1 (Ne.symm hmin.2)
          rw [hfind] at h2
          exact h2
        have h0 := (hspec (sp.size - 2) (by omega)).1
        rw [show sp.size - 2 + 1 = sp.size - 1 from by omega]
        linarith
  have hzero : ∀ i, i < sp.size → i ≠ k → i ≠ k + 1 →
      basisFunction (calculate_knots sp) 2 i u = 0 := by
    intro i hi h1 h2
    by_contra hne
    rcases hksup i hi hne with h | h
    · exact h1 h
    · exact h2 h
  have hinfl : ∀ i, basisInfluenceK (calculate_knots sp) sp j i =
      basisFunction (calculate_knots sp) 2 i u * sp.weights.getD i 1 := by
    intro i
    unfold basisInfluenceK
    rw [horder, ← hu]
  have hwAt : ∀ i, i < sp.size → 0 < sp.weights.getD i 1 := by
    intro i hi
    have himem : sp.weights.getD i 1 ∈ sp.weights := by
      rw [List.getD_eq_getElem?_getD,
        List.getElem?_eq_getElem (by rw [hw]; exact hi)]
      exact List.getElem_mem _
    exact hwpos _ himem
  have hwk : 0 < sp.weights.getD k 1 := hwAt k (by omega)
  have hwk1 : 0 < sp.weights.getD (k + 1) 1 := hwAt (k + 1) hk1
  have hposab : 0 < basisFunction (calculate_knots sp) 2 k u ∨
      0 < basisFunction (calculate_knots sp) 2 (k + 1) u := by
    by_contra hcon
    push_neg at hcon
    linarith [hcon.1, hcon.2]
  have hden : 0 < basisFunction (calculate_knots sp) 2 k u * sp.weights.getD k 1 +
      basisFunction (calculate_knots sp) 2 (k + 1) u * sp.weights.getD (k + 1) 1 := by
    rcases hposab with hA | hB
    · have h1 : 0 < basisFunction (calculate_knots sp) 2 k u * sp.weights.getD k 1 :=
        mul_pos hA hwk
      have h2 : 0 ≤ basisFunction (calculate_knots sp) 2 (k + 1) u *
          sp.weights.getD (k + 1) 1 := mul_nonneg hb (le_of_lt hwk1)
      linarith
    · have h1 : 0 ≤ basisFunction (calculate_knots sp) 2 k u * sp.weights.getD k 1 :=
        mul_nonneg ha (le_of_lt hwk)
      have h2 : 0 < basisFunction (calculate_knots sp) 2 (k + 1) u *
          sp.weights.getD (k + 1) 1 := mul_pos hB hwk1
      linarith
  refine ⟨k, hk1, ?_, ?_⟩
  · intro i hi hne
    by_contra hcon
    push_neg at hcon
    apply hne
    show (calculate_basis_cache_entryK (calculate_knots sp) sp j).weightAt i = 0
    rw [weightAt_entry _ _ _ _ hi, hinfl i, hzero i hi hcon.1 hcon.2, zero_mul]
  · have hsum : ∑ i ∈ Finset.range sp.size,
        basisInfluenceK (calculate_knots sp) sp j i =
        basisFunction (calculate_knots sp) 2 k u * sp.weights.getD k 1 +
          basisFunction (calculate_knots sp) 2 (k + 1) u *
            sp.weights.getD (k + 1) 1 := by
      rw [sum_two_support sp.size k hk1 _
        (fun i hi h1 h2 => by rw [hinfl i, hzero i hi h1 h2, zero_mul]),
        hinfl k, hinfl (k + 1)]
    have hnum : ∀ g : Float3 → ℚ,
        ∑ i ∈ Finset.range sp.size,
            basisInfluenceK (calculate_knots sp) sp j i *
              g (sp.positions.getD i Float3.zero) =
          basisFunction (calculate_knots sp) 2 k u * sp.weights.getD k 1 *
              g (sp.positions.getD k Float3.zero) +
            basisFunction (calculate_knots sp) 2 (k + 1) u *
                sp.weights.getD (k + 1) 1 *
              g (sp.positions.getD (k + 1) Float3.zero) := by
      intro g
      rw [sum_two_support sp.size k hk1 _
        (fun i hi h1 h2 => by
          rw [hinfl i, hzero i hi h1 h2, zero_mul, zero_mul]),
        hinfl k, hinfl (k + 1)]
    have hpos : sp.evaluated_positions.getD j Float3.zero =
        evaluated_positionK (calculate_knots sp) sp j := by
      unfold NURBSpline.evaluated_positions
      rw [if_pos hvalid]
      exact getD_map_range _ _ _ _ hj
    refine ⟨basisFunction (calculate_knots sp) 2 (k + 1) u * sp.weights.getD (k + 1) 1 /
        (basisFunction (calculate_knots sp) 2 k u * sp.weights.getD k 1 +
          basisFunction (calculate_knots sp) 2 (k + 1) u *
            sp.weights.getD (k + 1) 1), ?_, ?_, ?_⟩
    · exact div_nonneg (mul_nonneg hb (le_of_lt hwk1)) (le_of_lt hden)
    · rw [div_le_one hden]
      have h1 : 0 ≤ basisFunction (calculate_knots sp) 2 k u * sp.weights.getD k 1 :=
        mul_nonneg ha (le_of_lt hwk)
      linarith
    · rw [hpos]
      unfold evaluated_positionK
      simp only [hsum, hnum (fun p => p.x), hnum (fun p => p.y), hnum (fun p => p.z)]
      simp only [Float3.lerp, Float3.add, Float3.smul, Float3.mk.injEq]
      exact ⟨convex_combination _ _ _ _ _ _ hden, convex_combination _ _ _ _ _ _ hden,
        convex_combination _ _ _ _ _ _ hden⟩

/-- A valid order-2 NURBS spline: 3 collinear control points, unit weights,
resolution 1, uniform knots, non-cyclic. -/
def nurbsOrder2Example : NURBSpline :=
  ⟨[⟨0, 0, 0⟩, ⟨1, 0, 0⟩, ⟨2, 0, 0⟩], [1, 1, 1], [0, 0, 0], [1, 1, 1], 1, 2,
    false, KnotsMode.Normal⟩

/-- Concrete refutation of C6's "exactly 2": the first evaluated point of
`nurbsOrder2Example` samples the curve exactly at a knot, so its basis
cache entry gives non-zero weight to a single control point — no pair of
consecutive control points both receive non-zero weight. -/
theorem nurbs_order2_exactly_two_counterexample :
    nurbsOrder2Example.evaluated_points_size = 2 ∧
    ¬ ∃ k, ((nurbsOrder2Example.basis_cache_entry 0).weightAt k ≠ 0 ∧
        (nurbsOrder2Example.basis_cache_entry 0).weightAt (k + 1) ≠ 0) := by
  have hknots : calculate_knots nurbsOrder2Example = [0, 1, 2, 3, 4] := by
    show (List.range 5).map (knotValue KnotsMode.Normal 3 2) = [0, 1, 2, 3, 4]
    norm_num [List.range_succ, knotValue]
  have hK5 : ∀ i, i < 3 + 2 → ([(0 : ℚ), 1, 2, 3, 4]).getD i 0 = (i : ℚ) := by
    intro i hi
    interval_cases i <;> norm_num [List.getD]
  have hu : evalParameterK [0, 1, 2, 3, 4] nurbsOrder2Example 0 = 1 := by
    show (1 : ℚ) + (0 : ℕ) * ((3 - 1) / ((1 : ℕ) : ℚ)) = 1
    norm_num
  have hb : ∀ i, i < 3 →
      basisInfluenceK [0, 1, 2, 3, 4] nurbsOrder2Example 0 i = basis2 i 1 := by
    intro i hi
    unfold basisInfluenceK
    rw [show nurbsOrder2Example.order = 2 from rfl,
      basisFunction_eq_basis2 _ 3 hK5 i hi, hu]
    have hw1 : nurbsOrder2Example.weights.getD i 1 = 1 := by
      interval_cases i <;> rfl
    rw [hw1, mul_one]
  have h0 : basisInfluenceK [0, 1, 2, 3, 4] nurbsOrder2Example 0 0 = 2 := by
    rw [hb 0 (by norm_num)]
    norm_num [basis2]
  have h1 : basisInfluenceK [0, 1, 2, 3, 4] nurbsOrder2Example 0 1 = 0 := by
    rw [hb 1 (by norm_num)]
    norm_num [basis2]
  have h2 : basisInfluenceK [0, 1, 2, 3, 4] nurbsOrder2Example 0 2 = 0 := by
    rw [hb 2 (by norm_num)]
    norm_num [basis2]
  have hfull : (List.range nurbsOrder2Example.size).map
      (fun i => basisInfluenceK [0, 1, 2, 3, 4] nurbsOrder2Example 0 i) =
      [2, 0, 0] := by
    show (List.range 3).map _ = _
    rw [show List.range 3 = [0, 1, 2] by norm_num [List.range_succ]]
    simp only [List.map_cons, List.map_nil, h0, h1, h2]
  have hentry : nurbsOrder2Example.basis_cache_entry 0 = ⟨[2, 0, 0], 0⟩ := by
    unfold NURBSpline.basis_cache_entry calculate_basis_cache_entryK
    rw [hknots, hfull]
    norm_num [List.findIdx_cons]
  have hwAt : ∀ k, (⟨[2, 0, 0], 0⟩ : BasisCache).weightAt k ≠ 0 ↔ k = 0 := by
    intro k
    unfold BasisCache.weightAt
    rcases k with _ | _ | _ | k <;>
      simp [List.getD_eq_getElem?_getD]
  refine ⟨rfl, ?_⟩
  rintro ⟨k, hk1, hk2⟩
  rw [hentry] at hk1 hk2
  have hkz := (hwAt k).mp hk1
  subst hkz
  exact absurd ((hwAt 1).mp hk2) (by norm_num)

theorem nurbs_order2_piecewise_linear_witness :
    (nurbsOrder2Example.order = 2 ∧
      2 ≤ nurbsOrder2Example.size ∧
      nurbsOrder2Example.weights.length = nurbsOrder2Example.size ∧
      (∀ w ∈ nurbsOrder2Example.weights, 0 < w) ∧
      0 < nurbsOrder2Example.evaluated_points_size) ∧
    (∃ k, k + 1 < nurbsOrder2Example.size ∧
      (∀ i, i < nurbsOrder2Example.size →
        (nurbsOrder2Example.basis_cache_entry 0).weightAt i ≠ 0 → i = k ∨ i = k + 1) ∧
      ∃ t : ℚ, 0 ≤ t ∧ t ≤ 1 ∧
        nurbsOrder2Example.evaluated_positions.getD 0 Float3.zero =
          Float3.lerp t (nurbsOrder2Example.positions.getD k Float3.zero)
            (nurbsOrder2Example.positions.getD (k + 1) Float3.zero)) :=
  ⟨⟨rfl, by decide, rfl, by decide, by decide⟩,
    nurbs_order2_piecewise_linear nurbsOrder2Example rfl (by decide) rfl
      (by decide) 0 (by decide)⟩

/-! ## Poly variant (`PolySpline`)

Modelled from the spec: evaluated points are the control points verbatim;
`evaluated_points_size() == size()`; `interpolate_to_evaluated_points`
returns a view over the source without resampling, so at the value level it
is the identity (the lifetime caveat of the zero-copy view has no
counterpart in a value semantics). -/

/-- `PolySpline` control-point data (header lines 426–431) with the cyclic
flag of the `Spline` base. -/
structure PolySpline where
  positions : List Float3
  radii : List ℚ
  tilts : List ℚ
  is_cyclic : Bool

/-- `Spline::size()` for a poly spline. -/
def PolySpline.size (p : PolySpline) : ℕ := p.positions.length

/-- Modelled from the spec: `PolySpline::evaluated_points_size()`. -/
def PolySpline.evaluated_points_size (p : PolySpline) : ℕ := p.size

/-- Modelled from the spec: `PolySpline::evaluated_positions()` — the
control points verbatim. -/
def PolySpline.evaluated_positions (p : PolySpline) : List Float3 := p.positions

/-- Modelled from the spec: `PolySpline::interpolate_to_evaluated_points` —
a view over the source data with no resampling. -/
def PolySpline.interpolate_to_evaluated_points (_p : PolySpline)
    (source : List α) : List α := source

/-- C7: for every poly spline, `evaluated_points_size()` equals `size()`,
`evaluated_positions()` is the control-point list verbatim, and
`interpolate_to_evaluated_points` maps any source to itself: same length,
same value at every index, same order. -/
theorem poly_identity (p : PolySpline) (source : List α) :
    p.evaluated_points_size = p.size ∧
    p.evaluated_positions = p.positions ∧
    p.interpolate_to_evaluated_points source = source ∧
    (p.interpolate_to_evaluated_points source).length = source.length ∧
    (∀ (i : ℕ) (dflt : α),
      (p.interpolate_to_evaluated_points source).getD i dflt = source.getD i dflt) :=
  ⟨rfl, rfl, rfl, rfl, fun _ _ => rfl⟩

/-! ## Bézier variant: copy semantics (`BezierSpline`)

The copy constructor is in the source (header lines 230–241, with the base
copy constructor at lines 101–104): it copies the handle types and
positions, positions, radii, tilts and resolution (and the base's type,
cyclic flag and normal mode), and leaves every cache member
default-initialized — empty buffer, dirty flag `true`. -/

/-- `BezierSpline::HandleType` (header lines 189–198). -/
inductive HandleType where
  | Free
  | Auto
  | Vector
  | Align
deriving DecidableEq, Repr

/-- `Spline::NormalCalculationMode` (header lines 72–76). -/
inductive NormalCalculationMode where
  | ZUp
  | Minimum
  | Tangent
deriving DecidableEq, Repr

/-- The control-point data members of `BezierSpline` (header lines
200–208), with the base's cyclic flag and normal mode. -/
structure BezierSpline where
  handle_types_left : List HandleType
  handle_positions_left : List Float3
  positions : List Float3
  handle_types_right : List HandleType
  handle_positions_right : List Float3
  radii : List ℚ
  tilts : List ℚ
  resolution : ℕ
  is_cyclic : Bool
  normal_mode : NormalCalculationMode

/-- A lazily-computed cache: a value plus its dirty flag.  Mirrors the
`mutable` value/mutex/dirty triples of the header (the mutex has no
counterpart in a sequential model). -/
structure CacheCell (α : Type) where
  value : α
  dirty : Bool

/-- A Bézier spline together with its caches: the offset, position and
mapping caches of the variant (header lines 210–223) and the tangent,
normal and length caches of the base (header lines 80–94). -/
structure BezierSplineState where
  data : BezierSpline
  offset_cache : CacheCell (List ℕ)
  position_cache : CacheCell (List Float3)
  mapping_cache : CacheCell (List ℚ)
  tangent_cache : CacheCell (List Float3)
  normal_cache : CacheCell (List Float3)
  length_cache : CacheCell (List ℚ)

/-- The copy constructor `BezierSpline(const BezierSpline &)` (header lines
230–241): all control-point data is copied; every cache member is freshly
default-initialized, i.e. empty and dirty. -/
def copyBezier (st : BezierSplineState) : BezierSplineState :=
  ⟨st.data, ⟨[], true⟩, ⟨[], true⟩, ⟨[], true⟩, ⟨[], true⟩, ⟨[], true⟩, ⟨[], true⟩⟩

/-- Modelled from the spec: the structural/geometric mutations of a Bézier
spline.  `transform` takes the applied matrix as a black-box point map. -/
inductive BezierMutation where
  | translate (delta : Float3)
  | transform (m : Float3 → Float3)
  | add_point (pos : Float3) (handle_type_start : HandleType)
      (handle_position_start : Float3) (handle_type_end : HandleType)
      (handle_position_end : Float3) (radius tilt : ℚ)
  | set_resolution (r : ℕ)

/-- `BezierSpline::mark_cache_invalid()`: every cache of the variant and of
the base is marked dirty. -/
def bezier_mark_cache_invalid (st : BezierSplineState) : BezierSplineState :=
  { st with
    offset_cache := ⟨st.offset_cache.value, true⟩,
    position_cache := ⟨st.position_cache.value, true⟩,
    mapping_cache := ⟨st.mapping_cache.value, true⟩,
    tangent_cache := ⟨st.tangent_cache.value, true⟩,
    normal_cache := ⟨st.normal_cache.value, true⟩,
    length_cache := ⟨st.length_cache.value, true⟩ }

/-- Modelled from the spec: each mutation updates the control-point data
(for Bézier, `translate`/`transform` also move the handles) and calls
`mark_cache_invalid()`. -/
def applyBezierMutation : BezierMutation → BezierSplineState → BezierSplineState
  | .translate dl, st => bezier_mark_cache_invalid
      { st with data := { st.data with
          positions := st.data.positions.map (Float3.add dl),
          handle_positions_left := st.data.handle_positions_left.map (Float3.add dl),
          handle_positions_right := st.data.handle_positions_right.map (Float3.add dl) } }
  | .transform m, st => bezier_mark_cache_invalid
      { st with data := { st.data with
          positions := st.data.positions.map m,
          handle_positions_left := st.data.handle_positions_left.map m,
          handle_positions_right := st.data.handle_positions_right.map m } }
  | .add_point p hts hps hte hpe r t, st => bezier_mark_cache_invalid
      { st with data := { st.data with
          handle_types_left := st.data.handle_types_left ++ [hts],
          handle_positions_left := st.data.handle_positions_left ++ [hps],
          positions := st.data.positions ++ [p],
          handle_types_right := st.data.handle_types_right ++ [hte],
          handle_positions_right := st.data.handle_positions_right ++ [hpe],
          radii := st.data.radii ++ [r],
          tilts := st.data.tilts ++ [t] } }
  | .set_resolution r, st => bezier_mark_cache_invalid
      { st with data := { st.data with resolution := r } }

/-! ### Bézier evaluation and caches

Modelled from the spec: a segment from control point `i` to `i + 1` is a
cubic with the two inner handles as middle control vertices, sampled
`resolution` times (a vector segment collapses to one sample);
`control_point_offsets()` gives each control point the starting
evaluated-point index of its outgoing segment, and the mapping cache holds
the control-point "index factor" of every evaluated point.  A non-cyclic
spline appends the final control point as the last evaluated point. -/

/-- `Spline::size()` for a Bézier spline. -/
def BezierSpline.size (sp : BezierSpline) : ℕ := sp.positions.length

/-- Modelled from the spec: `BezierSpline::segment_is_vector(i)` — the
segment's two inner handles are both `Vector` type (vector handles are
maintained collinear with the endpoints by construction). -/
def segment_is_vector (sp : BezierSpline) (i : ℕ) : Bool :=
  decide (sp.handle_types_right.getD i HandleType.Free = HandleType.Vector ∧
    sp.handle_types_left.getD ((i + 1) % sp.size) HandleType.Free = HandleType.Vector)

/-- Modelled from the spec: the number of evaluated points a segment
contributes — `resolution`, collapsed to 1 for a vector segment. -/
def bezier_segment_samples (sp : BezierSpline) (i : ℕ) : ℕ :=
  if segment_is_vector sp i then 1 else sp.resolution

/-- Modelled from the spec: `BezierSpline::control_point_offsets()` — per
control point, the starting evaluated-point index of its outgoing
segment. -/
def control_point_offsets (sp : BezierSpline) : List ℕ :=
  (List.range sp.size).map (fun i => ∑ m ∈ Finset.range i, bezier_segment_samples sp m)

/-- Modelled from the spec: `BezierSpline::evaluated_points_size()` — the
samples of all segments, plus the final control point when not cyclic. -/
def BezierSpline.evaluated_points_size (sp : BezierSpline) : ℕ :=
  if sp.size = 0 then 0
  else (∑ m ∈ Finset.range (segments_size sp.is_cyclic sp.size),
      bezier_segment_samples sp m) + (if sp.is_cyclic then 0 else 1)

/-- The closed-form cubic Bézier basis at parameter `t` over the four
control vertices of one segment. -/
def evaluate_bezier_point (p0 h1 h2 p1 : Float3) (t : ℚ) : Float3 :=
  Float3.add (Float3.smul ((1 - t) * (1 - t) * (1 - t)) p0)
    (Float3.add (Float3.smul (3 * (1 - t) * (1 - t) * t) h1)
      (Float3.add (Float3.smul (3 * (1 - t) * t * t) h2)
        (Float3.smul (t * t * t) p1)))

/-- Modelled from the spec: `BezierSpline::evaluate_bezier_segment` — the
samples of segment `i`, at parameters `m / samples` for `m < samples`. -/
def evaluate_bezier_segment (sp : BezierSpline) (i : ℕ) : List Float3 :=
  (List.range (bezier_segment_samples sp i)).map fun m =>
    evaluate_bezier_point (sp.positions.getD i Float3.zero)
      (sp.handle_positions_right.getD i Float3.zero)
      (sp.handle_positions_left.getD ((i + 1) % sp.size) Float3.zero)
      (sp.positions.getD ((i + 1) % sp.size) Float3.zero)
      ((m : ℚ) / (bezier_segment_samples sp i : ℚ))

/-- Modelled from the spec: `BezierSpline::evaluated_positions()` — the
concatenated segment samples, with the final control point appended when
not cyclic. -/
def bezier_evaluated_positions (sp : BezierSpline) : List Float3 :=
  if sp.size = 0 then []
  else ((List.range (segments_size sp.is_cyclic sp.size)).map
      (evaluate_bezier_segment sp)).flatten ++
    (if sp.is_cyclic then [] else [sp.positions.getD (sp.size - 1) Float3.zero])

/-- Modelled from the spec: `BezierSpline::evaluated_mappings()` — the
control-point index factor of each evaluated point: control index plus the
local factor within the segment (the appended final point maps to the last
control index). -/
def bezier_evaluated_mappings (sp : BezierSpline) : List ℚ :=
  if sp.size = 0 then []
  else ((List.range (segments_size sp.is_cyclic sp.size)).map (fun i =>
      (List.range (bezier_segment_samples sp i)).map (fun m =>
        (i : ℚ) + (m : ℚ) / (bezier_segment_samples sp i : ℚ)))).flatten ++
    (if sp.is_cyclic then [] else [((sp.size - 1 : ℕ) : ℚ)])

/-- Get-or-compute for the offset cache. -/
def ensure_bezier_offsets (st : BezierSplineState) : BezierSplineState :=
  if st.offset_cache.dirty then
    { st with offset_cache := ⟨control_point_offsets st.data, false⟩ }
  else st

/-- Get-or-compute for the Bézier position cache, after ensuring the
offsets that lay out its per-segment ranges. -/
def ensure_bezier_positions (st : BezierSplineState) : BezierSplineState :=
  if (ensure_bezier_offsets st).position_cache.dirty then
    { ensure_bezier_offsets st with position_cache :=
        ⟨bezier_evaluated_positions (ensure_bezier_offsets st).data, false⟩ }
  else ensure_bezier_offsets st

/-- Get-or-compute for the mapping cache, after ensuring the offsets it is
derived from. -/
def ensure_bezier_mappings (st : BezierSplineState) : BezierSplineState :=
  if (ensure_bezier_offsets st).mapping_cache.dirty then
    { ensure_bezier_offsets st with mapping_cache :=
        ⟨bezier_evaluated_mappings (ensure_bezier_offsets st).data, false⟩ }
  else ensure_bezier_offsets st

/-- Get-or-compute for the base length cache of a Bézier spline, from the
(first ensured) position cache, for a distance function `d`. -/
def ensure_bezier_lengths (d : Float3 → Float3 → ℚ) (st : BezierSplineState) :
    BezierSplineState :=
  if (ensure_bezier_positions st).length_cache.dirty then
    { ensure_bezier_positions st with length_cache :=
        ⟨evaluated_lengths d (ensure_bezier_positions st).data.is_cyclic
          (ensure_bezier_positions st).position_cache.value, false⟩ }
  else ensure_bezier_positions st

/-- `control_point_offsets()` as a cache read. -/
def read_bezier_offsets (st : BezierSplineState) : BezierSplineState × List ℕ :=
  (ensure_bezier_offsets st, (ensure_bezier_offsets st).offset_cache.value)

/-- `evaluated_positions()` as a cache read. -/
def read_bezier_positions (st : BezierSplineState) : BezierSplineState × List Float3 :=
  (ensure_bezier_positions st, (ensure_bezier_positions st).position_cache.value)

/-- `evaluated_mappings()` as a cache read. -/
def read_bezier_mappings (st : BezierSplineState) : BezierSplineState × List ℚ :=
  (ensure_bezier_mappings st, (ensure_bezier_mappings st).mapping_cache.value)

/-- `evaluated_lengths()` as a cache read. -/
def read_bezier_lengths (d : Float3 → Float3 → ℚ) (st : BezierSplineState) :
    BezierSplineState × List ℚ :=
  (ensure_bezier_lengths d st, (ensure_bezier_lengths d st).length_cache.value)

theorem ensure_bezier_offsets_value (st : BezierSplineState)
    (ho : st.offset_cache.dirty = true) :
    (ensure_bezier_offsets st).offset_cache.value = control_point_offsets st.data := by
  unfold ensure_bezier_offsets
  simp [ho]

theorem ensure_bezier_positions_spec (st : BezierSplineState)
    (ho : st.offset_cache.dirty = true) (hp : st.position_cache.dirty = true) :
    (ensure_bezier_positions st).data = st.data ∧
    (ensure_bezier_positions st).position_cache.value =
      bezier_evaluated_positions st.data ∧
    (ensure_bezier_positions st).mapping_cache = st.mapping_cache ∧
    (ensure_bezier_positions st).length_cache = st.length_cache := by
  unfold ensure_bezier_positions ensure_bezier_offsets
  simp [ho, hp]

theorem ensure_bezier_mappings_value (st : BezierSplineState)
    (ho : st.offset_cache.dirty = true) (hm : st.mapping_cache.dirty = true) :
    (ensure_bezier_mappings st).mapping_cache.value =
      bezier_evaluated_mappings st.data := by
  unfold ensure_bezier_mappings ensure_bezier_offsets
  simp [ho, hm]

theorem ensure_bezier_lengths_value (d : Float3 → Float3 → ℚ)
    (st : BezierSplineState) (ho : st.offset_cache.dirty = true)
    (hp : st.position_cache.dirty = true) (hl : st.length_cache.dirty = true) :
    (ensure_bezier_lengths d st).length_cache.value =
      evaluated_lengths d st.data.is_cyclic (bezier_evaluated_positions st.data) := by
  obtain ⟨h1, h2, _, h4⟩ := ensure_bezier_positions_spec st ho hp
  have hld : (ensure_bezier_positions st).length_cache.dirty = true := by
    rw [h4]
    exact hl
  unfold ensure_bezier_lengths
  rw [if_pos hld, h1, h2]

/-- After any Bézier mutation every cache is dirty, and each subsequent
read of the offset, position, mapping and length caches recomputes from
the post-mutation control-point data. -/
theorem bezier_mutation_fresh (st : BezierSplineState) (op : BezierMutation)
    (d : Float3 → Float3 → ℚ) :
    ((applyBezierMutation op st).offset_cache.dirty = true ∧
      (applyBezierMutation op st).position_cache.dirty = true ∧
      (applyBezierMutation op st).mapping_cache.dirty = true ∧
      (applyBezierMutation op st).length_cache.dirty = true ∧
      (applyBezierMutation op st).tangent_cache.dirty = true ∧
      (applyBezierMutation op st).normal_cache.dirty = true) ∧
    (read_bezier_offsets (applyBezierMutation op st)).2 =
      control_point_offsets (applyBezierMutation op st).data ∧
    (read_bezier_positions (applyBezierMutation op st)).2 =
      bezier_evaluated_positions (applyBezierMutation op st).data ∧
    (read_bezier_mappings (applyBezierMutation op st)).2 =
      bezier_evaluated_mappings (applyBezierMutation op st).data ∧
    (read_bezier_lengths d (applyBezierMutation op st)).2 =
      evaluated_lengths d (applyBezierMutation op st).data.is_cyclic
        (bezier_evaluated_positions (applyBezierMutation op st).data) := by
  have hflags : (applyBezierMutation op st).offset_cache.dirty = true ∧
      (applyBezierMutation op st).position_cache.dirty = true ∧
      (applyBezierMutation op st).mapping_cache.dirty = true ∧
      (applyBezierMutation op st).length_cache.dirty = true ∧
      (applyBezierMutation op st).tangent_cache.dirty = true ∧
      (applyBezierMutation op st).normal_cache.dirty = true := by
    cases op <;> exact ⟨rfl, rfl, rfl, rfl, rfl, rfl⟩
  obtain ⟨ho, hp, hm, hl, ht, hn⟩ := hflags
  exact ⟨⟨ho, hp, hm, hl, ht, hn⟩, ensure_bezier_offsets_value _ ho,
    (ensure_bezier_positions_spec _ ho hp).2.1,
    ensure_bezier_mappings_value _ ho hm, ensure_bezier_lengths_value d _ ho hp hl⟩

/-! ## Cache invalidation and re-population (`NURBSpline` state machine)

Modelled from the spec: caches are born dirty, populated on first read
(check the dirty flag, recompute if dirty, clear the flag) and invalidated
on mutation.  The header fixes which flags exist for a NURBS spline (knots,
basis, position, plus the base's tangent/normal/length) and notes that the
knot cache is "only invalidated when a point is added or removed" (line
345).  Tangents are central differences of neighboring evaluated points
(forward/backward at open ends); normals derive from tangents in `ZUp`
mode by a cross product with a reference axis.  Unit normalization of
tangents and normals needs a real square root and is omitted from the
exact model; it does not affect which data each cache depends on. -/

/-- The basis cache of every evaluated point, as recomputed from a knot
vector. -/
def computeBasis (knots : List ℚ) (sp : NURBSpline) : List BasisCache :=
  (List.range sp.evaluated_points_size).map (calculate_basis_cache_entryK knots sp)

/-- Modelled from the spec: the rational weighted sum `Σ wⱼ·Pⱼ / Σ wⱼ`
driven by a stored basis cache entry. -/
def positionFromEntry (sp : NURBSpline) (e : BasisCache) : Float3 :=
  let den := ∑ i ∈ Finset.range sp.size, e.weightAt i
  ⟨(∑ i ∈ Finset.range sp.size, e.weightAt i * (sp.positions.getD i Float3.zero).x) / den,
   (∑ i ∈ Finset.range sp.size, e.weightAt i * (sp.positions.getD i Float3.zero).y) / den,
   (∑ i ∈ Finset.range sp.size, e.weightAt i * (sp.positions.getD i Float3.zero).z) / den⟩

/-- The position cache recomputed from the stored basis cache. -/
def computePositionsFromBasis (entries : List BasisCache) (sp : NURBSpline) :
    List Float3 :=
  entries.map (positionFromEntry sp)

/-- Modelled from the spec: central-difference tangent directions, with
one-sided differences at the open ends (unit normalization omitted). -/
def computeTangents (cyclic : Bool) (ps : List Float3) : List Float3 :=
  (List.range ps.length).map fun i =>
    if cyclic then
      Float3.sub (ps.getD ((i + 1) % ps.length) Float3.zero)
        (ps.getD ((i + ps.length - 1) % ps.length) Float3.zero)
    else if i = 0 then Float3.sub (ps.getD 1 Float3.zero) (ps.getD 0 Float3.zero)
    else if i = ps.length - 1 then
      Float3.sub (ps.getD i Float3.zero) (ps.getD (i - 1) Float3.zero)
    else Float3.sub (ps.getD (i + 1) Float3.zero) (ps.getD (i - 1) Float3.zero)

/-- Cross product (black-box math boundary). -/
def Float3.cross (a b : Float3) : Float3 :=
  ⟨a.y * b.z - a.z * b.y, a.z * b.x - a.x * b.z, a.x * b.y - a.y * b.x⟩

/-- Modelled from the spec: the `ZUp` normal of one tangent — cross with
the world-up axis, falling back to a secondary reference axis when the
tangent is parallel to it (unit normalization omitted). -/
def zUpNormal (t : Float3) : Float3 :=
  if t.x = 0 ∧ t.y = 0 then Float3.cross t ⟨0, 1, 0⟩ else Float3.cross t ⟨0, 0, 1⟩

/-- The normal cache recomputed from the tangent cache under `ZUp` mode. -/
def computeNormals (ts : List Float3) : List Float3 := ts.map zUpNormal

/-- A NURBS spline together with its caches: knots, basis and position of
the variant (header lines 342–362) and tangent, normal, length of the base
(header lines 80–94). -/
structure NURBSplineState where
  data : NURBSpline
  knots_cache : CacheCell (List ℚ)
  basis_cache : CacheCell (List BasisCache)
  position_cache : CacheCell (List Float3)
  tangent_cache : CacheCell (List Float3)
  normal_cache : CacheCell (List Float3)
  length_cache : CacheCell (List ℚ)

/-- `NURBSpline::mark_cache_invalid()`: the basis and position caches and
the base's tangent/normal/length caches are marked dirty.  The knot cache
is not: per the header it is only invalidated when a point is added or
removed. -/
def nurbs_mark_cache_invalid (st : NURBSplineState) : NURBSplineState :=
  { st with
    basis_cache := ⟨st.basis_cache.value, true⟩,
    position_cache := ⟨st.position_cache.value, true⟩,
    tangent_cache := ⟨st.tangent_cache.value, true⟩,
    normal_cache := ⟨st.normal_cache.value, true⟩,
    length_cache := ⟨st.length_cache.value, true⟩ }

/-- Modelled from the spec: the structural/geometric mutations of a NURBS
spline named by the invalidation property. -/
inductive NURBSMutation where
  | translate (delta : Float3)
  | transform (m : Float3 → Float3)
  | add_point (pos : Float3) (radius tilt weight : ℚ)
  | set_resolution (r : ℕ)

/-- Modelled from the spec: each mutation updates the control-point data
and calls `mark_cache_invalid()`; adding a point additionally dirties the
knot cache. -/
def applyNURBSMutation : NURBSMutation → NURBSplineState → NURBSplineState
  | .translate dl, st => nurbs_mark_cache_invalid
      { st with data := { st.data with
          positions := st.data.positions.map (Float3.add dl) } }
  | .transform m, st => nurbs_mark_cache_invalid
      { st with data := { st.data with
          positions := st.data.positions.map m } }
  | .add_point p r t w, st =>
      let st1 := nurbs_mark_cache_invalid
        { st with data := { st.data with
            positions := st.data.positions ++ [p],
            radii := st.data.radii ++ [r],
            tilts := st.data.tilts ++ [t],
            weights := st.data.weights ++ [w] } }
      { st1 with knots_cache := ⟨st1.knots_cache.value, true⟩ }
  | .set_resolution r, st => nurbs_mark_cache_invalid
      { st with data := { st.data with resolution := r } }

/-- Get-or-compute for the knot cache. -/
def ensure_knots (st : NURBSplineState) : NURBSplineState :=
  if st.knots_cache.dirty then
    { st with knots_cache := ⟨calculate_knots st.data, false⟩ }
  else st

/-- Get-or-compute for the basis cache, from the (first ensured) knot
cache. -/
def ensure_basis (st : NURBSplineState) : NURBSplineState :=
  if (ensure_knots st).basis_cache.dirty then
    { ensure_knots st with basis_cache :=
        ⟨computeBasis (ensure_knots st).knots_cache.value (ensure_knots st).data, false⟩ }
  else ensure_knots st

/-- Get-or-compute for the position cache, from the (first ensured) basis
cache. -/
def ensure_positions (st : NURBSplineState) : NURBSplineState :=
  if (ensure_basis st).position_cache.dirty then
    { ensure_basis st with position_cache :=
        ⟨computePositionsFromBasis (ensure_basis st).basis_cache.value
          (ensure_basis st).data, false⟩ }
  else ensure_basis st

/-- Get-or-compute for the length cache, from the (first ensured) position
cache, for a distance function `d`. -/
def ensure_lengths (d : Float3 → Float3 → ℚ) (st : NURBSplineState) :
    NURBSplineState :=
  if (ensure_positions st).length_cache.dirty then
    { ensure_positions st with length_cache :=
        ⟨evaluated_lengths d (ensure_positions st).data.is_cyclic
          (ensure_positions st).position_cache.value, false⟩ }
  else ensure_positions st

/-- Get-or-compute for the tangent cache, from the (first ensured) position
cache. -/
def ensure_tangents (st : NURBSplineState) : NURBSplineState :=
  if (ensure_positions st).tangent_cache.dirty then
    { ensure_positions st with tangent_cache :=
        ⟨computeTangents (ensure_positions st).data.is_cyclic
          (ensure_positions st).position_cache.value, false⟩ }
  else ensure_positions st

/-- Get-or-compute for the normal cache, from the (first ensured) tangent
cache. -/
def ensure_normals (st : NURBSplineState) : NURBSplineState :=
  if (ensure_tangents st).normal_cache.dirty then
    { ensure_tangents st with normal_cache :=
        ⟨computeNormals (ensure_tangents st).tangent_cache.value, false⟩ }
  else ensure_tangents st

/-- `evaluated_positions()` as a cache read: ensure, then return the cached
buffer. -/
def read_evaluated_positions (st : NURBSplineState) :
    NURBSplineState × List Float3 :=
  ((ensure_positions st), (ensure_positions st).position_cache.value)

/-- `evaluated_lengths()` as a cache read. -/
def read_evaluated_lengths (d : Float3 → Float3 → ℚ) (st : NURBSplineState) :
    NURBSplineState × List ℚ :=
  ((ensure_lengths d st), (ensure_lengths d st).length_cache.value)

/-- `evaluated_tangents()` as a cache read. -/
def read_evaluated_tangents (st : NURBSplineState) :
    NURBSplineState × List Float3 :=
  ((ensure_tangents st), (ensure_tangents st).tangent_cache.value)

/-- `evaluated_normals()` as a cache read. -/
def read_evaluated_normals (st : NURBSplineState) :
    NURBSplineState × List Float3 :=
  ((ensure_normals st), (ensure_normals st).normal_cache.value)

theorem positionFromEntry_entryK (knots : List ℚ) (sp : NURBSpline) (j : ℕ) :
    positionFromEntry sp (calculate_basis_cache_entryK knots sp j) =
      evaluated_positionK knots sp j := by
  have hd : ∑ i ∈ Finset.range sp.size,
      (calculate_basis_cache_entryK knots sp j).weightAt i =
      ∑ i ∈ Finset.range sp.size, basisInfluenceK knots sp j i :=
    Finset.sum_congr rfl fun i hi =>
      weightAt_entry _ _ _ _ (Finset.mem_range.mp hi)
  have hg : ∀ g : Float3 → ℚ,
      ∑ i ∈ Finset.range sp.size,
          (calculate_basis_cache_entryK knots sp j).weightAt i *
            g (sp.positions.getD i Float3.zero) =
        ∑ i ∈ Finset.range sp.size,
          basisInfluenceK knots sp j i * g (sp.positions.getD i Float3.zero) :=
    fun g => Finset.sum_congr rfl fun i hi => by
      rw [weightAt_entry _ _ _ _ (Finset.mem_range.mp hi)]
  unfold positionFromEntry evaluated_positionK
  simp only [hd, hg (fun p => p.x), hg (fun p => p.y), hg (fun p => p.z)]

theorem computePositions_computeBasis (sp : NURBSpline) :
    computePositionsFromBasis (computeBasis (calculate_knots sp) sp) sp =
      sp.evaluated_positions := by
  unfold computePositionsFromBasis computeBasis NURBSpline.evaluated_positions
  rw [List.map_map]
  by_cases hv : sp.check_valid_size_and_order = true
  · rw [if_pos hv]
    exact List.map_congr_left fun j _ => positionFromEntry_entryK _ sp j
  · rw [if_neg hv]
    have hz : sp.evaluated_points_size = 0 := by
      unfold NURBSpline.evaluated_points_size
      rw [if_neg hv]
    rw [hz]
    rfl

theorem ensure_positions_spec (st : NURBSplineState)
    (hb : st.basis_cache.dirty = true) (hp : st.position_cache.dirty = true)
    (hk : st.knots_cache.dirty = false →
      st.knots_cache.value = calculate_knots st.data) :
    (ensure_positions st).data = st.data ∧
    (ensure_positions st).position_cache.value = st.data.evaluated_positions ∧
    (ensure_positions st).tangent_cache = st.tangent_cache ∧
    (ensure_positions st).normal_cache = st.normal_cache ∧
    (ensure_positions st).length_cache = st.length_cache := by
  by_cases hkd : st.knots_cache.dirty = true
  · unfold ensure_positions ensure_basis ensure_knots
    simp [hkd, hb, hp, computePositions_computeBasis]
  · have hkf : st.knots_cache.dirty = false := by
      cases h : st.knots_cache.dirty
      · rfl
      · exact absurd h hkd
    unfold ensure_positions ensure_basis ensure_knots
    simp [hkf, hb, hp, hk hkf, computePositions_computeBasis]

theorem ensure_lengths_value (d : Float3 → Float3 → ℚ) (st : NURBSplineState)
    (hb : st.basis_cache.dirty = true) (hp : st.position_cache.dirty = true)
    (hk : st.knots_cache.dirty = false →
      st.knots_cache.value = calculate_knots st.data)
    (hl : st.length_cache.dirty = true) :
    (ensure_lengths d st).length_cache.value =
      evaluated_lengths d st.data.is_cyclic st.data.evaluated_positions := by
  obtain ⟨h1, h2, _, _, h5⟩ := ensure_positions_spec st hb hp hk
  have hld : (ensure_positions st).length_cache.dirty = true := by rw [h5]; exact hl
  unfold ensure_lengths
  rw [if_pos hld, h1, h2]

theorem ensure_tangents_spec (st : NURBSplineState)
    (hb : st.basis_cache.dirty = true) (hp : st.position_cache.dirty = true)
    (hk : st.knots_cache.dirty = false →
      st.knots_cache.value = calculate_knots st.data)
    (ht : st.tangent_cache.dirty = true) :
    (ensure_tangents st).data = st.data ∧
    (ensure_tangents st).tangent_cache.value =
      computeTangents st.data.is_cyclic st.data.evaluated_positions ∧
    (ensure_tangents st).normal_cache = st.normal_cache := by
  obtain ⟨h1, h2, h3, h4, _⟩ := ensure_positions_spec st hb hp hk
  have htd : (ensure_positions st).tangent_cache.dirty = true := by rw [h3]; exact ht
  unfold ensure_tangents
  rw [if_pos htd]
  exact ⟨h1, by rw [h1, h2], h4⟩

theorem ensure_normals_value (st : NURBSplineState)
    (hb : st.basis_cache.dirty = true) (hp : st.position_cache.dirty = true)
    (hk : st.knots_cache.dirty = false →
      st.knots_cache.value = calculate_knots st.data)
    (ht : st.tangent_cache.dirty = true) (hn : st.normal_cache.dirty = true) :
    (ensure_normals st).normal_cache.value =
      computeNormals (computeTangents st.data.is_cyclic
        st.data.evaluated_positions) := by
  obtain ⟨_, h2, h3⟩ := ensure_tangents_spec st hb hp hk ht
  have hnd : (ensure_tangents st).normal_cache.dirty = true := by rw [h3]; exact hn
  unfold ensure_normals
  rw [if_pos hnd, h2]

theorem calculate_knots_map_positions (sp : NURBSpline) (f : Float3 → Float3) :
    calculate_knots { sp with positions := sp.positions.map f } =
      calculate_knots sp := by
  unfold calculate_knots NURBSpline.knots_size NURBSpline.size
  rw [List.length_map]

/-- The NURBS half of the invalidation property: after any mutation every
dependent cache (basis, positions, lengths, tangents, normals) is dirty
and every subsequent read recomputes from the post-mutation data.  The
hypothesis is the spec's own clean-cache invariant for the one cache a
position edit legitimately keeps (the knot vector, which depends only on
point count and order). -/
theorem nurbs_mutation_invalidates_then_fresh (st : NURBSplineState)
    (op : NURBSMutation) (d : Float3 → Float3 → ℚ)
    (hk : st.knots_cache.dirty = false →
      st.knots_cache.value = calculate_knots st.data) :
    ((applyNURBSMutation op st).basis_cache.dirty = true ∧
      (applyNURBSMutation op st).position_cache.dirty = true ∧
      (applyNURBSMutation op st).length_cache.dirty = true ∧
      (applyNURBSMutation op st).tangent_cache.dirty = true ∧
      (applyNURBSMutation op st).normal_cache.dirty = true) ∧
    (read_evaluated_positions (applyNURBSMutation op st)).2 =
      (applyNURBSMutation op st).data.evaluated_positions ∧
    (read_evaluated_lengths d (applyNURBSMutation op st)).2 =
      evaluated_lengths d (applyNURBSMutation op st).data.is_cyclic
        ((applyNURBSMutation op st).data.evaluated_positions) ∧
    (read_evaluated_tangents (applyNURBSMutation op st)).2 =
      computeTangents (applyNURBSMutation op st).data.is_cyclic
        ((applyNURBSMutation op st).data.evaluated_positions) ∧
    (read_evaluated_normals (applyNURBSMutation op st)).2 =
      computeNormals (computeTangents (applyNURBSMutation op st).data.is_cyclic
        ((applyNURBSMutation op st).data.evaluated_positions)) := by
  have hflags : (applyNURBSMutation op st).basis_cache.dirty = true ∧
      (applyNURBSMutation op st).position_cache.dirty = true ∧
      (applyNURBSMutation op st).length_cache.dirty = true ∧
      (applyNURBSMutation op st).tangent_cache.dirty = true ∧
      (applyNURBSMutation op st).normal_cache.dirty = true := by
    cases op <;> exact ⟨rfl, rfl, rfl, rfl, rfl⟩
  obtain ⟨hb, hp, hl, ht, hn⟩ := hflags
  have hk2 : (applyNURBSMutation op st).knots_cache.dirty = false →
      (applyNURBSMutation op st).knots_cache.value =
        calculate_knots (applyNURBSMutation op st).data := by
    cases op with
    | translate dl =>
        intro h
        show st.knots_cache.value = _
        rw [hk h]
        exact (calculate_knots_map_positions st.data (Float3.add dl)).symm
    | transform m =>
        intro h
        show st.knots_cache.value = _
        rw [hk h]
        exact (calculate_knots_map_positions st.data m).symm
    | add_point p r t w =>
        intro h
        exact Bool.noConfusion h
    | set_resolution r =>
        intro h
        show st.knots_cache.value = _
        rw [hk h]
        rfl
  refine ⟨⟨hb, hp, hl, ht, hn⟩, ?_, ?_, ?_, ?_⟩
  · exact (ensure_positions_spec _ hb hp hk2).2.1
  · exact ensure_lengths_value d _ hb hp hk2 hl
  · exact (ensure_tangents_spec _ hb hp hk2 ht).2.1
  · exact ensure_normals_value _ hb hp hk2 ht hn

/-- A NURBS spline state with every cache born dirty. -/
def nurbsStateExample : NURBSplineState :=
  ⟨nurbsOrder2Example, ⟨[], true⟩, ⟨[], true⟩, ⟨[], true⟩, ⟨[], true⟩,
    ⟨[], true⟩, ⟨[], true⟩⟩

/-! ## Poly variant caches and copy semantics of all three variants

Modelled from the spec: a poly spline has no position or mapping cache —
its evaluated positions are the control points verbatim — but shares the
base tangent/normal/length caches and their invalidation discipline.  The
copy constructors (header lines 230–241, 369–379 and 438–444, with the
base copy constructor at 101–104) copy the full control-point data and
leave every cache member default-initialized: empty buffer, dirty flag
`true`. -/

/-- A poly spline together with the base caches (header lines 80–94). -/
structure PolySplineState where
  data : PolySpline
  tangent_cache : CacheCell (List Float3)
  normal_cache : CacheCell (List Float3)
  length_cache : CacheCell (List ℚ)

/-- `PolySpline::mark_cache_invalid()`: the base's tangent/normal/length
caches are marked dirty (there is no variant cache). -/
def poly_mark_cache_invalid (st : PolySplineState) : PolySplineState :=
  { st with
    tangent_cache := ⟨st.tangent_cache.value, true⟩,
    normal_cache := ⟨st.normal_cache.value, true⟩,
    length_cache := ⟨st.length_cache.value, true⟩ }

/-- Modelled from the spec: the structural/geometric mutations of a poly
spline (it has no resolution parameter). -/
inductive PolyMutation where
  | translate (delta : Float3)
  | transform (m : Float3 → Float3)
  | add_point (pos : Float3) (radius tilt : ℚ)

/-- Modelled from the spec: each mutation updates the control-point data
and calls `mark_cache_invalid()`. -/
def applyPolyMutation : PolyMutation → PolySplineState → PolySplineState
  | .translate dl, st => poly_mark_cache_invalid
      { st with data := { st.data with
          positions := st.data.positions.map (Float3.add dl) } }
  | .transform m, st => poly_mark_cache_invalid
      { st with data := { st.data with
          positions := st.data.positions.map m } }
  | .add_point p r t, st => poly_mark_cache_invalid
      { st with data := { st.data with
          positions := st.data.positions ++ [p],
          radii := st.data.radii ++ [r],
          tilts := st.data.tilts ++ [t] } }

/-- Get-or-compute for the poly length cache, directly from the evaluated
(= control) positions. -/
def ensure_poly_lengths (d : Float3 → Float3 → ℚ) (st : PolySplineState) :
    PolySplineState :=
  if st.length_cache.dirty then
    { st with length_cache :=
        ⟨evaluated_lengths d st.data.is_cyclic st.data.evaluated_positions, false⟩ }
  else st

/-- Get-or-compute for the poly tangent cache. -/
def ensure_poly_tangents (st : PolySplineState) : PolySplineState :=
  if st.tangent_cache.dirty then
    { st with tangent_cache :=
        ⟨computeTangents st.data.is_cyclic st.data.evaluated_positions, false⟩ }
  else st

/-- Get-or-compute for the poly normal cache, from the (first ensured)
tangent cache. -/
def ensure_poly_normals (st : PolySplineState) : PolySplineState :=
  if (ensure_poly_tangents st).normal_cache.dirty then
    { ensure_poly_tangents st with normal_cache :=
        ⟨computeNormals (ensure_poly_tangents st).tangent_cache.value, false⟩ }
  else ensure_poly_tangents st

/-- `evaluated_positions()` of a poly spline: no cache, the control points
are returned directly. -/
def read_poly_positions (st : PolySplineState) : PolySplineState × List Float3 :=
  (st, st.data.evaluated_positions)

/-- `evaluated_lengths()` as a cache read. -/
def read_poly_lengths (d : Float3 → Float3 → ℚ) (st : PolySplineState) :
    PolySplineState × List ℚ :=
  (ensure_poly_lengths d st, (ensure_poly_lengths d st).length_cache.value)

/-- `evaluated_tangents()` as a cache read. -/
def read_poly_tangents (st : PolySplineState) : PolySplineState × List Float3 :=
  (ensure_poly_tangents st, (ensure_poly_tangents st).tangent_cache.value)

/-- `evaluated_normals()` as a cache read. -/
def read_poly_normals (st : PolySplineState) : PolySplineState × List Float3 :=
  (ensure_poly_normals st, (ensure_poly_normals st).normal_cache.value)

theorem ensure_poly_lengths_value (d : Float3 → Float3 → ℚ) (st : PolySplineState)
    (hl : st.length_cache.dirty = true) :
    (ensure_poly_lengths d st).length_cache.value =
      evaluated_lengths d st.data.is_cyclic st.data.evaluated_positions := by
  unfold ensure_poly_lengths
  simp [hl]

theorem ensure_poly_tangents_value (st : PolySplineState)
    (ht : st.tangent_cache.dirty = true) :
    (ensure_poly_tangents st).tangent_cache.value =
      computeTangents st.data.is_cyclic st.data.evaluated_positions := by
  unfold ensure_poly_tangents
  simp [ht]

theorem ensure_poly_normals_value (st : PolySplineState)
    (ht : st.tangent_cache.dirty = true) (hn : st.normal_cache.dirty = true) :
    (ensure_poly_normals st).normal_cache.value =
      computeNormals (computeTangents st.data.is_cyclic
        st.data.evaluated_positions) := by
  unfold ensure_poly_normals ensure_poly_tangents
  simp [ht, hn]

/-- The poly half of the invalidation property: after any mutation the
base caches are dirty and every subsequent read recomputes from the
post-mutation data (positions are read uncached). -/
theorem poly_mutation_fresh (st : PolySplineState) (op : PolyMutation)
    (d : Float3 → Float3 → ℚ) :
    ((applyPolyMutation op st).tangent_cache.dirty = true ∧
      (applyPolyMutation op st).normal_cache.dirty = true ∧
      (applyPolyMutation op st).length_cache.dirty = true) ∧
    (read_poly_positions (applyPolyMutation op st)).2 =
      (applyPolyMutation op st).data.evaluated_positions ∧
    (read_poly_lengths d (applyPolyMutation op st)).2 =
      evaluated_lengths d (applyPolyMutation op st).data.is_cyclic
        ((applyPolyMutation op st).data.evaluated_positions) ∧
    (read_poly_tangents (applyPolyMutation op st)).2 =
      computeTangents (applyPolyMutation op st).data.is_cyclic
        ((applyPolyMutation op st).data.evaluated_positions) ∧
    (read_poly_normals (applyPolyMutation op st)).2 =
      computeNormals (computeTangents (applyPolyMutation op st).data.is_cyclic
        ((applyPolyMutation op st).data.evaluated_positions)) := by
  have hflags : (applyPolyMutation op st).tangent_cache.dirty = true ∧
      (applyPolyMutation op st).normal_cache.dirty = true ∧
      (applyPolyMutation op st).length_cache.dirty = true := by
    cases op <;> exact ⟨rfl, rfl, rfl⟩
  obtain ⟨ht, hn, hl⟩ := hflags
  exact ⟨⟨ht, hn, hl⟩, rfl, ensure_poly_lengths_value d _ hl,
    ensure_poly_tangents_value _ ht, ensure_poly_normals_value _ ht hn⟩

/-- The copy constructor `NURBSpline(const NURBSpline &)` (header lines
369–379): all control-point data and curve parameters are copied; every
cache member is freshly default-initialized, i.e. empty and dirty. -/
def copyNURBS (st : NURBSplineState) : NURBSplineState :=
  ⟨st.data, ⟨[], true⟩, ⟨[], true⟩, ⟨[], true⟩, ⟨[], true⟩, ⟨[], true⟩, ⟨[], true⟩⟩

/-- The copy constructor `PolySpline(const PolySpline &)` (header lines
438–444): all control-point data is copied; every cache member is freshly
default-initialized, i.e. empty and dirty. -/
def copyPoly (st : PolySplineState) : PolySplineState :=
  ⟨st.data, ⟨[], true⟩, ⟨[], true⟩, ⟨[], true⟩⟩

/-- A Bézier spline with two control points joined by a vector segment. -/
def bezierExample : BezierSpline :=
  ⟨[HandleType.Vector, HandleType.Vector], [⟨0, 0, 0⟩, ⟨1, 0, 0⟩],
    [⟨0, 0, 0⟩, ⟨2, 0, 0⟩], [HandleType.Vector, HandleType.Vector],
    [⟨1, 0, 0⟩, ⟨2, 0, 0⟩], [1, 1], [0, 0], 3, false, NormalCalculationMode.ZUp⟩

/-- A Bézier spline state with every cache born dirty. -/
def bezierStateExample : BezierSplineState :=
  ⟨bezierExample, ⟨[], true⟩, ⟨[], true⟩, ⟨[], true⟩, ⟨[], true⟩, ⟨[], true⟩,
    ⟨[], true⟩⟩

/-- A two-point open polyline. -/
def polyExample : PolySpline := ⟨[⟨0, 0, 0⟩, ⟨1, 0, 0⟩], [1, 1], [0, 0], false⟩

/-- A poly spline state with every cache born dirty. -/
def polyStateExample : PolySplineState :=
  ⟨polyExample, ⟨[], true⟩, ⟨[], true⟩, ⟨[], true⟩⟩

/-- C8: for every spline of any variant, after any mutation via
`transform()`, `translate()`, `add_point()` or `set_resolution()`, every
dependent cache is marked dirty, and every subsequent cache read —
evaluated positions, lengths, tangents and normals for NURBS; offsets,
positions, the evaluated→control mapping cache and lengths for Bézier;
positions, lengths, tangents and normals for poly splines — recomputes
from the current (post-mutation) control-point data, never a stale
pre-mutation value.  The one hypothesis is the spec's own clean-cache
invariant for the one cache a NURBS position edit legitimately keeps (the
knot vector, which depends only on point count and order). -/
theorem mutation_invalidates_then_fresh
    (stn : NURBSplineState) (opn : NURBSMutation)
    (stb : BezierSplineState) (opb : BezierMutation)
    (stp : PolySplineState) (opp : PolyMutation)
    (d : Float3 → Float3 → ℚ)
    (hk : stn.knots_cache.dirty = false →
      stn.knots_cache.value = calculate_knots stn.data) :
    (((applyNURBSMutation opn stn).basis_cache.dirty = true ∧
        (applyNURBSMutation opn stn).position_cache.dirty = true ∧
        (applyNURBSMutation opn stn).length_cache.dirty = true ∧
        (applyNURBSMutation opn stn).tangent_cache.dirty = true ∧
        (applyNURBSMutation opn stn).normal_cache.dirty = true) ∧
      (read_evaluated_positions (applyNURBSMutation opn stn)).2 =
        (applyNURBSMutation opn stn).data.evaluated_positions ∧
      (read_evaluated_lengths d (applyNURBSMutation opn stn)).2 =
        evaluated_lengths d (applyNURBSMutation opn stn).data.is_cyclic
          ((applyNURBSMutation opn stn).data.evaluated_positions) ∧
      (read_evaluated_tangents (applyNURBSMutation opn stn)).2 =
        computeTangents (applyNURBSMutation opn stn).data.is_cyclic
          ((applyNURBSMutation opn stn).data.evaluated_positions) ∧
      (read_evaluated_normals (applyNURBSMutation opn stn)).2 =
        computeNormals (computeTangents (applyNURBSMutation opn stn).data.is_cyclic
          ((applyNURBSMutation opn stn).data.evaluated_positions))) ∧
    (((applyBezierMutation opb stb).offset_cache.dirty = true ∧
        (applyBezierMutation opb stb).position_cache.dirty = true ∧
        (applyBezierMutation opb stb).mapping_cache.dirty = true ∧
        (applyBezierMutation opb stb).length_cache.dirty = true ∧
        (applyBezierMutation opb stb).tangent_cache.dirty = true ∧
        (applyBezierMutation opb stb).normal_cache.dirty = true) ∧
      (read_bezier_offsets (applyBezierMutation opb stb)).2 =
        control_point_offsets (applyBezierMutation opb stb).data ∧
      (read_bezier_positions (applyBezierMutation opb stb)).2 =
        bezier_evaluated_positions (applyBezierMutation opb stb).data ∧
      (read_bezier_mappings (applyBezierMutation opb stb)).2 =
        bezier_evaluated_mappings (applyBezierMutation opb stb).data ∧
      (read_bezier_lengths d (applyBezierMutation opb stb)).2 =
        evaluated_lengths d (applyBezierMutation opb stb).data.is_cyclic
          (bezier_evaluated_positions (applyBezierMutation opb stb).data)) ∧
    (((applyPolyMutation opp stp).tangent_cache.dirty = true ∧
        (applyPolyMutation opp stp).normal_cache.dirty = true ∧
        (applyPolyMutation opp stp).length_cache.dirty = true) ∧
      (read_poly_positions (applyPolyMutation opp stp)).2 =
        (applyPolyMutation opp stp).data.evaluated_positions ∧
      (read_poly_lengths d (applyPolyMutation opp stp)).2 =
        evaluated_lengths d (applyPolyMutation opp stp).data.is_cyclic
          ((applyPolyMutation opp stp).data.evaluated_positions) ∧
      (read_poly_tangents (applyPolyMutation opp stp)).2 =
        computeTangents (applyPolyMutation opp stp).data.is_cyclic
          ((applyPolyMutation opp stp).data.evaluated_positions) ∧
      (read_poly_normals (applyPolyMutation opp stp)).2 =
        computeNormals (computeTangents (applyPolyMutation opp stp).data.is_cyclic
          ((applyPolyMutation opp stp).data.evaluated_positions))) :=
  ⟨nurbs_mutation_invalidates_then_fresh stn opn d hk,
    bezier_mutation_fresh stb opb d, poly_mutation_fresh stp opp d⟩

theorem mutation_invalidates_then_fresh_witness :
    (nurbsStateExample.knots_cache.dirty = false →
      nurbsStateExample.knots_cache.value = calculate_knots nurbsStateExample.data) ∧
    (read_evaluated_positions (applyNURBSMutation (NURBSMutation.set_resolution 7)
        nurbsStateExample)).2 =
      (applyNURBSMutation (NURBSMutation.set_resolution 7)
        nurbsStateExample).data.evaluated_positions ∧
    (read_bezier_mappings (applyBezierMutation (BezierMutation.set_resolution 5)
        bezierStateExample)).2 =
      bezier_evaluated_mappings (applyBezierMutation (BezierMutation.set_resolution 5)
        bezierStateExample).data ∧
    (read_poly_lengths (fun _ _ => (1 : ℚ))
        (applyPolyMutation (PolyMutation.translate ⟨1, 0, 0⟩) polyStateExample)).2 =
      evaluated_lengths (fun _ _ => (1 : ℚ))
        (applyPolyMutation (PolyMutation.translate ⟨1, 0, 0⟩)
          polyStateExample).data.is_cyclic
        ((applyPolyMutation (PolyMutation.translate ⟨1, 0, 0⟩)
          polyStateExample).data.evaluated_positions) := by
  refine ⟨fun h => Bool.noConfusion h, ?_, ?_, ?_⟩
  · exact (mutation_invalidates_then_fresh nurbsStateExample
      (NURBSMutation.set_resolution 7) bezierStateExample
      (BezierMutation.set_resolution 5) polyStateExample
      (PolyMutation.translate ⟨1, 0, 0⟩) (fun _ _ => (1 : ℚ))
      (fun h => Bool.noConfusion h)).1.2.1
  · exact (mutation_invalidates_then_fresh nurbsStateExample
      (NURBSMutation.set_resolution 7) bezierStateExample
      (BezierMutation.set_resolution 5) polyStateExample
      (PolyMutation.translate ⟨1, 0, 0⟩) (fun _ _ => (1 : ℚ))
      (fun h => Bool.noConfusion h)).2.1.2.2.2.1
  · exact (mutation_invalidates_then_fresh nurbsStateExample
      (NURBSMutation.set_resolution 7) bezierStateExample
      (BezierMutation.set_resolution 5) polyStateExample
      (PolyMutation.translate ⟨1, 0, 0⟩) (fun _ _ => (1 : ℚ))
      (fun h => Bool.noConfusion h)).2.2.2.2.1

/-- C9: for each variant, `copy()` (the copy constructors at header lines
230–241, 369–379 and 438–444, with the base at 101–104) duplicates the
full control-point data, while every cache of the copy is freshly
default-initialized — empty and dirty — so the first cache read on the
copy recomputes from the copied control-point data rather than returning
any cache content of the original, stale or not.  Buffer independence of
the deep copy is inherent to the value-semantic embedding: no aliasing is
expressible. -/
theorem copy_deep_fresh_caches (stb : BezierSplineState) (stn : NURBSplineState)
    (stp : PolySplineState) :
    ((copyBezier stb).data = stb.data ∧
      (copyBezier stb).offset_cache = ⟨[], true⟩ ∧
      (copyBezier stb).position_cache = ⟨[], true⟩ ∧
      (copyBezier stb).mapping_cache = ⟨[], true⟩ ∧
      (copyBezier stb).tangent_cache = ⟨[], true⟩ ∧
      (copyBezier stb).normal_cache = ⟨[], true⟩ ∧
      (copyBezier stb).length_cache = ⟨[], true⟩ ∧
      (read_bezier_positions (copyBezier stb)).2 =
        bezier_evaluated_positions stb.data ∧
      (read_bezier_mappings (copyBezier stb)).2 =
        bezier_evaluated_mappings stb.data) ∧
    ((copyNURBS stn).data = stn.data ∧
      (copyNURBS stn).knots_cache = ⟨[], true⟩ ∧
      (copyNURBS stn).basis_cache = ⟨[], true⟩ ∧
      (copyNURBS stn).position_cache = ⟨[], true⟩ ∧
      (copyNURBS stn).tangent_cache = ⟨[], true⟩ ∧
      (copyNURBS stn).normal_cache = ⟨[], true⟩ ∧
      (copyNURBS stn).length_cache = ⟨[], true⟩ ∧
      (read_evaluated_positions (copyNURBS stn)).2 =
        stn.data.evaluated_positions) ∧
    ((copyPoly stp).data = stp.data ∧
      (copyPoly stp).tangent_cache = ⟨[], true⟩ ∧
      (copyPoly stp).normal_cache = ⟨[], true⟩ ∧
      (copyPoly stp).length_cache = ⟨[], true⟩ ∧
      (read_poly_positions (copyPoly stp)).2 = stp.data.evaluated_positions ∧
      (read_poly_tangents (copyPoly stp)).2 =
        computeTangents stp.data.is_cyclic stp.data.evaluated_positions) :=
  ⟨⟨rfl, rfl, rfl, rfl, rfl, rfl, rfl,
      (ensure_bezier_positions_spec (copyBezier stb) rfl rfl).2.1,
      ensure_bezier_mappings_value (copyBezier stb) rfl rfl⟩,
    ⟨rfl, rfl, rfl, rfl, rfl, rfl, rfl,
      (ensure_positions_spec (copyNURBS stn) rfl rfl
        (fun h => Bool.noConfusion h)).2.1⟩,
    ⟨rfl, rfl, rfl, rfl, rfl,
      ensure_poly_tangents_value (copyPoly stp) rfl⟩⟩

end Blender
